import Mathlib

/-! Signals and Slots (`Signals.hpp`)

A shallow embedding of the `regalis::Signal` / `regalis::Slot` class templates.

Objects live in a heap and are named by their address: a `SlotId` stands for the
address held by a `std::shared_ptr<Slot<Args...>>` (what `.get()` returns), a
`SignalId` for the address of a `Signal<Args...>` (the value of `this`, stored
in `Slot::_signal`).  Pointer equality in the source is equality of ids here.

The stored callables act on an external world `W` (listener objects, globals);
they have no access to the heap of signals and slots, so they can neither
connect, disconnect nor toggle slots.  Every invocation of a stored callable is
recorded in the ghost field `calls`, which is the call trace of the program.
-/

namespace regalis

/-- Address of a `Slot<Args...>` object. -/
abbrev SlotId := Nat

/-- Address of a `Signal<Args...>` object. -/
abbrev SignalId := Nat

/-- The data members of `Slot<Args...>`, with their default member initialisers
(`_signal = nullptr`, `_active = true`). -/
structure Slot (Args W : Type) where
  _slot_function : Args → W → W
  _signal : Option SignalId := none
  _active : Bool := true

/-- The data member of `Signal<Args...>`: the `std::list` of shared pointers,
each represented by the address it holds. -/
structure Signal where
  slots : List SlotId := []

/-- Program state: the slot and signal objects by address, the allocation
frontier used by `new`, the world the callables act on, and the trace of
callable invocations made so far. -/
structure Heap (Args W : Type) where
  slotAt : SlotId → Slot Args W
  signalAt : SignalId → Signal
  nextSlot : SlotId
  world : W
  calls : List (SlotId × Args)

/-- A reference `T &t` to a listener object living in the world. -/
structure ObjRef (W T : Type) where
  read : W → T
  write : T → W → W

variable {Args W T : Type}

/-! ## Signal -/

/-- `Signal::connect`: `slots.push_back(slot); slot->_signal = this;`. -/
def Signal.connect (h : Heap Args W) (this : SignalId) (slot : SlotId) : Heap Args W :=
  let h1 : Heap Args W :=
    { h with signalAt := Function.update h.signalAt this
               { slots := (h.signalAt this).slots ++ [slot] } }
  { h1 with slotAt := Function.update h1.slotAt slot
              { h1.slotAt slot with _signal := some this } }

/-- The loop of `Signal::disconnect`: walk the list from `begin()`; at the first
entry whose pointer equals `slot` erase that entry and stop (`some` of the list
after `erase`); reaching `end()` gives `none`. -/
def Signal.disconnect.scan (slot : SlotId) : List SlotId → Option (List SlotId)
  | [] => none
  | x :: rest => if x = slot then some rest else (scan slot rest).map (fun l => x :: l)

/-- `Signal::disconnect`: on the first match erase it, clear `slot->_signal` and
return `true`; return `false` when the loop ends without a match. -/
def Signal.disconnect (h : Heap Args W) (this : SignalId) (slot : SlotId) :
    Bool × Heap Args W :=
  match Signal.disconnect.scan slot (h.signalAt this).slots with
  | some l =>
    let h1 : Heap Args W := { h with signalAt := Function.update h.signalAt this { slots := l } }
    (true, { h1 with slotAt := Function.update h1.slotAt slot
                       { h1.slotAt slot with _signal := none } })
  | none => (false, h)

/-- `Slot::operator()`: `if (_active) _slot_function(args...);`.  The invocation
of the stored callable is appended to the call trace. -/
def Slot.call (h : Heap Args W) (this : SlotId) (args : Args) : Heap Args W :=
  if (h.slotAt this)._active then
    { h with world := (h.slotAt this)._slot_function args h.world
             calls := h.calls ++ [(this, args)] }
  else h

/-- `Signal::emit`: `for (auto &x : slots) (*x)(args...);`. -/
def Signal.emit (h : Heap Args W) (this : SignalId) (args : Args) : Heap Args W :=
  (h.signalAt this).slots.foldl (fun acc x => Slot.call acc x args) h

/-- `Signal::operator()`: `emit(args...);`. -/
def Signal.call (h : Heap Args W) (this : SignalId) (args : Args) : Heap Args W :=
  Signal.emit h this args

/-! ## Slot -/

/-- Constructor `Slot(std::function<void(Args...)> f)`. -/
def Slot.new (f : Args → W → W) : Slot Args W :=
  { _slot_function := f }

/-- Constructor `Slot(T &t, void(T::*f)(Args...))`: the stored callable is the
closure `[&t, f](Args... args){(t.*f)(args...);}`. -/
def Slot.newMember (t : ObjRef W T) (f : T → Args → T) : Slot Args W :=
  { _slot_function := fun args w => t.write (f (t.read w) args) w }

/-- The expression `new Slot<Args...>(...)` handed to a `std::shared_ptr`: the
constructed object is placed at a fresh address, which is returned. -/
def Heap.alloc (h : Heap Args W) (s : Slot Args W) : SlotId × Heap Args W :=
  (h.nextSlot, { h with slotAt := Function.update h.slotAt h.nextSlot s
                        nextSlot := h.nextSlot + 1 })

/-- `Slot::create(std::function<void(Args...)> f)`: allocate a new Slot and
return the shared pointer to it. -/
def Slot.create (h : Heap Args W) (f : Args → W → W) : SlotId × Heap Args W :=
  Heap.alloc h (Slot.new f)

/-- `Slot::create(T &t, void(T::*f)(Args...))`. -/
def Slot.createMember (h : Heap Args W) (t : ObjRef W T) (f : T → Args → T) :
    SlotId × Heap Args W :=
  Heap.alloc h (Slot.newMember t f)

/-- `Slot::isConnected`: `return _signal;`. -/
def Slot.isConnected (h : Heap Args W) (this : SlotId) : Option SignalId × Heap Args W :=
  ((h.slotAt this)._signal, h)

/-- `Slot::makeInactive`: `_active = false;`. -/
def Slot.makeInactive (h : Heap Args W) (this : SlotId) : Heap Args W :=
  { h with slotAt := Function.update h.slotAt this { h.slotAt this with _active := false } }

/-- `Slot::makeActive`: `_active = true;`. -/
def Slot.makeActive (h : Heap Args W) (this : SlotId) : Heap Args W :=
  { h with slotAt := Function.update h.slotAt this { h.slotAt this with _active := true } }

/-- `Slot::isActive`: `return _active;`. -/
def Slot.isActive (h : Heap Args W) (this : SlotId) : Bool × Heap Args W :=
  ((h.slotAt this)._active, h)

/-! ## Free functions -/

/-- `connect(Signal<Args...> &sig, T &t, void(T::*f)(Args...))`. -/
def connectMember (h : Heap Args W) (sig : SignalId) (t : ObjRef W T) (f : T → Args → T) :
    SlotId × Heap Args W :=
  let (slot, h1) := Slot.createMember h t f
  (slot, Signal.connect h1 sig slot)

/-- `connect(Signal<Args...> &sig, void(*f)(Args...))`. -/
def connect (h : Heap Args W) (sig : SignalId) (f : Args → W → W) : SlotId × Heap Args W :=
  let (slot, h1) := Slot.create h f
  (slot, Signal.connect h1 sig slot)

/-! ## Caller sequences, the allocation invariant and example states -/

/-- A heap with no connection: every slot holds a callable that adds its argument
to a counter, every signal is empty. -/
def demo : Heap Nat Nat :=
  { slotAt := fun _ => Slot.new (fun n w => w + n)
    signalAt := fun _ => {}
    nextSlot := 0
    world := 0
    calls := [] }

/-- A caller connecting the slots of a list to one Signal, one
`Signal::connect` call after the other, in list order. -/
def connectAll (h : Heap Args W) (sig : SignalId) (l : List SlotId) : Heap Args W :=
  l.foldl (fun acc x => Signal.connect acc sig x) h

/-- Every pointer held in a registry points to a Slot that has been allocated. -/
def Allocated (h : Heap Args W) : Prop :=
  ∀ S x, x ∈ (h.signalAt S).slots → x < h.nextSlot

/-- A heap with four connections on signal 0, in the order 1, 2, 1, 3, where
slot 2 has been made inactive. -/
def busy : Heap Nat Nat :=
  Slot.makeInactive (connectAll { demo with nextSlot := 4 } 0 [1, 2, 1, 3]) 2

/-- A listener object with a running sum, as the first component of the world. -/
def sumRef : ObjRef (Nat × Nat) Nat :=
  { read := fun w => w.1
    write := fun t w => (t, w.2) }

/-- A heap whose world holds a listener object and a global counter; one slot
has been allocated, its callable adds to the global, and nothing is connected. -/
def pairBase : Heap Nat (Nat × Nat) :=
  { slotAt := fun _ => Slot.new (fun n w => (w.1, w.2 + n))
    signalAt := fun _ => {}
    nextSlot := 1
    world := (0, 0)
    calls := [] }

/-- The heap `pairBase` after connecting slot 0 to signal 0. -/
def pairHeap : Heap Nat (Nat × Nat) :=
  Signal.connect pairBase 0 0

/-! ## Programs over the public interface -/

/-- One call of the public interface made by a caller.  `create` stands for both
`Slot::create` overloads and `connectNew` for both free `connect` functions: the
member-bound overload stores the closure over the object, which is a callable
like any other.  `disconnect` is `Signal::disconnect`.  The member
`Slot::disconnect` is not a call a program can make: its body hands the raw
`this` to the by-value `std::shared_ptr` parameter of `Signal::disconnect`,
whose constructor from a raw pointer is explicit, so the member is ill-formed
as soon as it is instantiated. -/
inductive Op (Args W : Type) where
  | connect (sig : SignalId) (slot : SlotId)
  | disconnect (sig : SignalId) (slot : SlotId)
  | emit (sig : SignalId) (args : Args)
  | makeActive (slot : SlotId)
  | makeInactive (slot : SlotId)
  | create (f : Args → W → W)
  | connectNew (sig : SignalId) (f : Args → W → W)

/-- The state after one call (a returned value is dropped). -/
def Op.apply (h : Heap Args W) : Op Args W → Heap Args W
  | .connect sig slot => Signal.connect h sig slot
  | .disconnect sig slot => (Signal.disconnect h sig slot).2
  | .emit sig args => Signal.emit h sig args
  | .makeActive slot => Slot.makeActive h slot
  | .makeInactive slot => Slot.makeInactive h slot
  | .create f => (Slot.create h f).2
  | .connectNew sig f => (regalis.connect h sig f).2

/-- The state after a sequence of calls. -/
def run (h : Heap Args W) (ops : List (Op Args W)) : Heap Args W :=
  ops.foldl Op.apply h

/-- Freshly created Signals and Slots: every registry is empty and no Slot has a
back-reference.  Active flags and callables are left arbitrary. -/
def Fresh (h : Heap Args W) : Prop :=
  (∀ S, (h.signalAt S).slots = []) ∧ (∀ a, (h.slotAt a)._signal = none)

/-- Disciplined use of one call: `Signal::connect` is applied only to the handle
of a Slot that has been created and whose back-reference is none. -/
def Op.allowed (h : Heap Args W) : Op Args W → Bool
  | .connect _ slot => decide (slot < h.nextSlot) && (h.slotAt slot)._signal.isNone
  | _ => true

/-- Disciplined use of a sequence of calls: each call is allowed in the state it
is made in. -/
def Disciplined : Heap Args W → List (Op Args W) → Bool
  | _, [] => true
  | h, op :: rest => Op.allowed h op && Disciplined (Op.apply h op) rest

/-- A non-none back-reference names a Signal whose registry holds the Slot. -/
def BackrefRegistered (h : Heap Args W) : Prop :=
  ∀ a S, (h.slotAt a)._signal = some S → a ∈ (h.signalAt S).slots

/-- The full invariant of the data model: registries hold allocated Slots only
and no duplicate, and a Slot is in the registry of S exactly when its
back-reference is S. -/
def FullInv (h : Heap Args W) : Prop :=
  Allocated h
  ∧ (∀ S, (h.signalAt S).slots.Nodup)
  ∧ (∀ S a, a ∈ (h.signalAt S).slots ↔ (h.slotAt a)._signal = some S)

/-- The calls one `emit` adds to the trace. -/
def emitted (h : Heap Args W) (sig : SignalId) (args : Args) : List (SlotId × Args) :=
  (Signal.emit h sig args).calls.drop h.calls.length

/-- How often the callable of a Slot is invoked in a piece of trace. -/
def invocations (a : SlotId) (l : List (SlotId × Args)) : Nat :=
  (l.map Prod.fst).count a

/-- The owning handles the registries of the listed Signals keep on a Slot: one
`std::shared_ptr` copy per registry entry holding its address. -/
def registryHandles (h : Heap Args W) (sigs : List SignalId) (a : SlotId) : Nat :=
  (sigs.map (fun S => (h.signalAt S).slots.count a)).sum

/-- What `use_count()` reports for a Slot: the handles in the variables of the
callers plus the copies kept by the registries of the existing Signals. -/
def use_count (h : Heap Args W) (sigs : List SignalId) (callers : List SlotId) (a : SlotId) :
    Nat :=
  callers.count a + registryHandles h sigs a

/-- Four created Slots and no connection. -/
def fresh4 : Heap Nat Nat :=
  { demo with nextSlot := 4 }

/-- A disciplined program: slot 1 is connected to signal 0, disconnected,
connected to signal 1, a new Slot is created and connected by the free function,
and signal 1 is emitted. -/
def tidyOps : List (Op Nat Nat) :=
  [.connect 0 1, .disconnect 0 1, .connect 1 1, .connectNew 1 (fun n w => w + 2 * n), .emit 1 3]

/-- A program that connects slot 1 to signal 0 and then, without detaching it,
to signal 1. -/
def looseOps : List (Op Nat Nat) :=
  [.connect 0 1, .connect 1 1]

/-! ## Auxiliary lemmas -/

theorem Slot_call_slotAt (h : Heap Args W) (x : SlotId) (args : Args) :
    (Slot.call h x args).slotAt = h.slotAt := by
  unfold Slot.call
  split <;> rfl

theorem Slot_call_signalAt (h : Heap Args W) (x : SlotId) (args : Args) :
    (Slot.call h x args).signalAt = h.signalAt := by
  unfold Slot.call
  split <;> rfl

theorem Slot_call_nextSlot (h : Heap Args W) (x : SlotId) (args : Args) :
    (Slot.call h x args).nextSlot = h.nextSlot := by
  unfold Slot.call
  split <;> rfl

/-- What a walk over a list of slot pointers does to the heap: the objects are
untouched, the trace grows by the active entries in order, and the world is
threaded through their callables. -/
theorem walk_spec (l : List SlotId) (args : Args) (h : Heap Args W) :
    (l.foldl (fun acc x => Slot.call acc x args) h).slotAt = h.slotAt
    ∧ (l.foldl (fun acc x => Slot.call acc x args) h).signalAt = h.signalAt
    ∧ (l.foldl (fun acc x => Slot.call acc x args) h).nextSlot = h.nextSlot
    ∧ (l.foldl (fun acc x => Slot.call acc x args) h).calls
        = h.calls ++ (l.filter (fun x => (h.slotAt x)._active)).map (fun x => (x, args))
    ∧ (l.foldl (fun acc x => Slot.call acc x args) h).world
        = (l.filter (fun x => (h.slotAt x)._active)).foldl
            (fun w x => (h.slotAt x)._slot_function args w) h.world := by
  induction l generalizing h with
  | nil => simp
  | cons x rest ih =>
    have hs := Slot_call_slotAt h x args
    obtain ⟨i1, i2, i3, i4, i5⟩ := ih (Slot.call h x args)
    simp only [List.foldl_cons]
    refine ⟨by rw [i1, hs], by rw [i2, Slot_call_signalAt], by rw [i3, Slot_call_nextSlot], ?_, ?_⟩
    · rw [i4, hs]
      by_cases ha : (h.slotAt x)._active = true
      · simp [Slot.call, ha, List.filter_cons]
      · simp [Slot.call, ha, List.filter_cons]
    · rw [i5, hs]
      by_cases ha : (h.slotAt x)._active = true
      · simp [Slot.call, ha, List.filter_cons]
      · simp [Slot.call, ha, List.filter_cons]

theorem scan_eq_none (slot : SlotId) (l : List SlotId) :
    Signal.disconnect.scan slot l = none ↔ slot ∉ l := by
  induction l with
  | nil => simp [Signal.disconnect.scan]
  | cons x rest ih =>
    by_cases hx : x = slot
    · simp [Signal.disconnect.scan, hx]
    · have hx2 : ¬ slot = x := fun e => hx e.symm
      simp [Signal.disconnect.scan, hx, hx2, ih]

theorem scan_split (slot : SlotId) (l r : List SlotId)
    (hr : Signal.disconnect.scan slot l = some r) :
    ∃ l1 l2, l = l1 ++ slot :: l2 ∧ slot ∉ l1 ∧ r = l1 ++ l2 := by
  induction l generalizing r with
  | nil => simp [Signal.disconnect.scan] at hr
  | cons x rest ih =>
    by_cases hx : x = slot
    · simp [Signal.disconnect.scan, hx] at hr
      exact ⟨[], rest, by simp [hx], by simp, by simp [hr]⟩
    · cases hs : Signal.disconnect.scan slot rest with
      | none => simp [Signal.disconnect.scan, hx, hs] at hr
      | some r1 =>
      simp only [Signal.disconnect.scan, hx, if_false, hs] at hr
      have hr2 : x :: r1 = r := Option.some.inj hr
      subst hr2
      obtain ⟨l1, l2, e1, e2, e3⟩ := ih r1 hs
      have hx2 : ¬ slot = x := fun e => hx e.symm
      exact ⟨x :: l1, l2, by simp [e1], by simp [hx2, e2], by simp [e3]⟩

theorem scan_eq_erase (slot : SlotId) (l : List SlotId) (hmem : slot ∈ l) :
    Signal.disconnect.scan slot l = some (l.erase slot) := by
  induction l with
  | nil => simp at hmem
  | cons x rest ih =>
    by_cases hx : x = slot
    · simp [Signal.disconnect.scan, hx]
    · have hx2 : ¬ slot = x := fun e => hx e.symm
      have hm : slot ∈ rest := by simpa [hx2] using hmem
      simp [Signal.disconnect.scan, hx, ih hm, List.erase_cons_tail, hx]

/-! ## Signal::emit -/

/-- What emit does to every component of the state. -/
theorem emit_spec (h : Heap Args W) (S : SignalId) (args : Args) :
    (Signal.emit h S args).slotAt = h.slotAt
    ∧ (Signal.emit h S args).signalAt = h.signalAt
    ∧ (Signal.emit h S args).nextSlot = h.nextSlot
    ∧ (Signal.emit h S args).calls
        = h.calls ++ ((h.signalAt S).slots.filter (fun x => (h.slotAt x)._active)).map
            (fun x => (x, args))
    ∧ (Signal.emit h S args).world
        = ((h.signalAt S).slots.filter (fun x => (h.slotAt x)._active)).foldl
            (fun w x => (h.slotAt x)._slot_function args w) h.world :=
  walk_spec (h.signalAt S).slots args h

/-- C1: emit and the call operator invoke the stored callable of exactly the
active registry entries, once per entry, in registry order, each with the
emitted arguments; the calls added to the trace are the registry filtered by the
active flag, and the world is threaded through those callables in that order. -/
theorem emit_calls_active_in_order (h : Heap Args W) (S : SignalId) (args : Args) :
    (Signal.emit h S args).calls
        = h.calls ++ ((h.signalAt S).slots.filter (fun x => (h.slotAt x)._active)).map
            (fun x => (x, args))
    ∧ (Signal.emit h S args).world
        = ((h.signalAt S).slots.filter (fun x => (h.slotAt x)._active)).foldl
            (fun w x => (h.slotAt x)._slot_function args w) h.world
    ∧ Signal.call h S args = Signal.emit h S args := by
  obtain ⟨_, _, _, i4, i5⟩ := walk_spec (h.signalAt S).slots args h
  exact ⟨i4, i5, rfl⟩

/-! ## Signal::connect -/

theorem connect_slots (h : Heap Args W) (S : SignalId) (a : SlotId) :
    ((Signal.connect h S a).signalAt S).slots = (h.signalAt S).slots ++ [a] := by
  simp [Signal.connect]

theorem connect_signalAt_ne (h : Heap Args W) (S : SignalId) (a : SlotId) (S2 : SignalId)
    (hS : S2 ≠ S) : (Signal.connect h S a).signalAt S2 = h.signalAt S2 := by
  simp [Signal.connect, Function.update_noteq hS]

theorem connect_slotAt_self (h : Heap Args W) (S : SignalId) (a : SlotId) :
    (Signal.connect h S a).slotAt a = { h.slotAt a with _signal := some S } := by
  simp [Signal.connect]

theorem connect_slotAt_ne (h : Heap Args W) (S : SignalId) (a b : SlotId) (hb : b ≠ a) :
    (Signal.connect h S a).slotAt b = h.slotAt b := by
  simp [Signal.connect, Function.update_noteq hb]

theorem connect_active (h : Heap Args W) (S : SignalId) (a x : SlotId) :
    ((Signal.connect h S a).slotAt x)._active = (h.slotAt x)._active := by
  by_cases hx : x = a
  · rw [hx, connect_slotAt_self]
  · rw [connect_slotAt_ne h S a x hx]

theorem connect_slot_function (h : Heap Args W) (S : SignalId) (a x : SlotId) :
    ((Signal.connect h S a).slotAt x)._slot_function = (h.slotAt x)._slot_function := by
  by_cases hx : x = a
  · rw [hx, connect_slotAt_self]
  · rw [connect_slotAt_ne h S a x hx]

/-- C2: Signal::connect always succeeds; the registry of S becomes the old
registry with the handle appended at the end (also when the Slot is already in
it), the back-reference of the Slot becomes S whatever it was, its active flag
and callable are kept, and every other Slot, every other Signal, the world and
the call trace are unchanged. -/
theorem Signal_connect_appends (h : Heap Args W) (S : SignalId) (a : SlotId) :
    ((Signal.connect h S a).signalAt S).slots = (h.signalAt S).slots ++ [a]
    ∧ ((Signal.connect h S a).slotAt a)._signal = some S
    ∧ ((Signal.connect h S a).slotAt a)._active = (h.slotAt a)._active
    ∧ ((Signal.connect h S a).slotAt a)._slot_function = (h.slotAt a)._slot_function
    ∧ (∀ b, b ≠ a → (Signal.connect h S a).slotAt b = h.slotAt b)
    ∧ (∀ S2, S2 ≠ S → (Signal.connect h S a).signalAt S2 = h.signalAt S2)
    ∧ (Signal.connect h S a).world = h.world
    ∧ (Signal.connect h S a).calls = h.calls
    ∧ (Signal.connect h S a).nextSlot = h.nextSlot :=
  ⟨connect_slots h S a, by rw [connect_slotAt_self], connect_active h S a a,
    connect_slot_function h S a a, connect_slotAt_ne h S a, connect_signalAt_ne h S a,
    rfl, rfl, rfl⟩

/-! ## Signal::disconnect -/

theorem disconnect_of_mem (h : Heap Args W) (S : SignalId) (a : SlotId)
    (hmem : a ∈ (h.signalAt S).slots) :
    Signal.disconnect h S a
      = (true, { h with
          signalAt := Function.update h.signalAt S { slots := (h.signalAt S).slots.erase a }
          slotAt := Function.update h.slotAt a { h.slotAt a with _signal := none } }) := by
  simp [Signal.disconnect, scan_eq_erase a (h.signalAt S).slots hmem]

theorem disconnect_of_not_mem (h : Heap Args W) (S : SignalId) (a : SlotId)
    (hn : a ∉ (h.signalAt S).slots) : Signal.disconnect h S a = (false, h) := by
  simp [Signal.disconnect, (scan_eq_none a (h.signalAt S).slots).2 hn]

theorem erase_first_split (a : SlotId) (l : List SlotId) (hmem : a ∈ l) :
    ∃ l1 l2, l = l1 ++ a :: l2 ∧ a ∉ l1 ∧ l.erase a = l1 ++ l2 :=
  scan_split a l (l.erase a) (scan_eq_erase a l hmem)

/-- C3: when the Slot occurs in the registry of S, Signal::disconnect returns
true, removes exactly the first occurrence (the entries before and after it keep
their order) and clears the back-reference of the Slot; its active flag and
callable, every other Slot and every other Signal are unchanged. -/
theorem Signal_disconnect_present (h : Heap Args W) (S : SignalId) (a : SlotId)
    (hmem : a ∈ (h.signalAt S).slots) :
    (Signal.disconnect h S a).1 = true
    ∧ (∃ l1 l2, (h.signalAt S).slots = l1 ++ a :: l2 ∧ a ∉ l1
        ∧ ((Signal.disconnect h S a).2.signalAt S).slots = l1 ++ l2)
    ∧ ((Signal.disconnect h S a).2.signalAt S).slots = (h.signalAt S).slots.erase a
    ∧ ((Signal.disconnect h S a).2.slotAt a)._signal = none
    ∧ ((Signal.disconnect h S a).2.slotAt a)._active = (h.slotAt a)._active
    ∧ ((Signal.disconnect h S a).2.slotAt a)._slot_function = (h.slotAt a)._slot_function
    ∧ (∀ b, b ≠ a → (Signal.disconnect h S a).2.slotAt b = h.slotAt b)
    ∧ (∀ S2, S2 ≠ S → (Signal.disconnect h S a).2.signalAt S2 = h.signalAt S2) := by
  obtain ⟨l1, l2, e1, e2, e3⟩ := erase_first_split a (h.signalAt S).slots hmem
  rw [disconnect_of_mem h S a hmem]
  refine ⟨rfl, ⟨l1, l2, e1, e2, by simp [e3]⟩, by simp, by simp, by simp, by simp, ?_, ?_⟩
  · intro b hb
    simp [Function.update_noteq hb]
  · intro S2 hS
    simp [Function.update_noteq hS]

/-- C4: when the Slot does not occur in the registry of S, Signal::disconnect
returns false and leaves the whole state as it was; hence it returns true if and
only if the Slot occurs in the registry of S. -/
theorem Signal_disconnect_absent (h : Heap Args W) (S : SignalId) (a : SlotId) :
    (a ∉ (h.signalAt S).slots → Signal.disconnect h S a = (false, h))
    ∧ ((Signal.disconnect h S a).1 = true ↔ a ∈ (h.signalAt S).slots) := by
  refine ⟨disconnect_of_not_mem h S a, ?_⟩
  by_cases hm : a ∈ (h.signalAt S).slots
  · simp [disconnect_of_mem h S a hm, hm]
  · simp [disconnect_of_not_mem h S a hm, hm]

/-! ## Dispatch order -/

theorem connectAll_spec (l : List SlotId) (S : SignalId) (h : Heap Args W) :
    ((connectAll h S l).signalAt S).slots = (h.signalAt S).slots ++ l
    ∧ (∀ x, ((connectAll h S l).slotAt x)._active = (h.slotAt x)._active)
    ∧ (∀ x, ((connectAll h S l).slotAt x)._slot_function = (h.slotAt x)._slot_function)
    ∧ (connectAll h S l).calls = h.calls
    ∧ (connectAll h S l).world = h.world := by
  induction l generalizing h with
  | nil => simp [connectAll]
  | cons a rest ih =>
    obtain ⟨i1, i2, i3, i4, i5⟩ := ih (Signal.connect h S a)
    have e : connectAll h S (a :: rest) = connectAll (Signal.connect h S a) S rest := rfl
    rw [e]
    refine ⟨by rw [i1, connect_slots]; simp, ?_, ?_, by rw [i4]; rfl, by rw [i5]; rfl⟩
    · intro x
      rw [i2 x, connect_active]
    · intro x
      rw [i3 x, connect_slot_function]

/-- C5: dispatch order equals connection order.  On a Signal with an empty
registry, after connecting the active slots of a list one after the other, emit
invokes their callables in list order (trace and world); in particular
connecting a then b makes emit call a before b. -/
theorem emit_order_is_connect_order (h : Heap Args W) (S : SignalId) (l : List SlotId)
    (args : Args) (hfresh : (h.signalAt S).slots = [])
    (hact : ∀ x ∈ l, (h.slotAt x)._active = true) :
    (Signal.emit (connectAll h S l) S args).calls = h.calls ++ l.map (fun x => (x, args))
    ∧ (Signal.emit (connectAll h S l) S args).world
        = l.foldl (fun w x => (h.slotAt x)._slot_function args w) h.world
    ∧ (∀ a b, l = [a, b] →
        (Signal.emit (Signal.connect (Signal.connect h S a) S b) S args).calls
          = h.calls ++ [(a, args), (b, args)]) := by
  obtain ⟨i1, i2, i3, i4, i5⟩ := connectAll_spec l S h
  obtain ⟨_, _, _, e1, e2⟩ := emit_spec (connectAll h S l) S args
  have hfil : (l.filter (fun x => ((connectAll h S l).slotAt x)._active)) = l := by
    apply List.filter_eq_self.2
    intro x hx
    rw [i2 x]
    exact hact x hx
  have hcalls : (Signal.emit (connectAll h S l) S args).calls
      = h.calls ++ l.map (fun x => (x, args)) := by
    rw [e1, i1, hfresh, List.nil_append, hfil, i4]
  refine ⟨hcalls, ?_, ?_⟩
  · rw [e2, i1, hfresh, List.nil_append, hfil, i5]
    apply List.foldl_ext
    intro w x _
    rw [i3 x]
  · intro a b hl
    subst hl
    exact hcalls

/-! ## The active flag -/

theorem makeInactive_fields (h : Heap Args W) (a : SlotId) :
    (Slot.makeInactive h a).signalAt = h.signalAt
    ∧ ((Slot.makeInactive h a).slotAt a)._active = false
    ∧ ((Slot.makeInactive h a).slotAt a)._signal = (h.slotAt a)._signal
    ∧ ((Slot.makeInactive h a).slotAt a)._slot_function = (h.slotAt a)._slot_function
    ∧ (∀ b, b ≠ a → (Slot.makeInactive h a).slotAt b = h.slotAt b)
    ∧ (Slot.makeInactive h a).world = h.world
    ∧ (Slot.makeInactive h a).calls = h.calls
    ∧ (Slot.makeInactive h a).nextSlot = h.nextSlot := by
  refine ⟨rfl, by simp [Slot.makeInactive], by simp [Slot.makeInactive],
    by simp [Slot.makeInactive], ?_, rfl, rfl, rfl⟩
  intro b hb
  simp [Slot.makeInactive, Function.update_noteq hb]

theorem makeActive_fields (h : Heap Args W) (a : SlotId) :
    (Slot.makeActive h a).signalAt = h.signalAt
    ∧ ((Slot.makeActive h a).slotAt a)._active = true
    ∧ ((Slot.makeActive h a).slotAt a)._signal = (h.slotAt a)._signal
    ∧ ((Slot.makeActive h a).slotAt a)._slot_function = (h.slotAt a)._slot_function
    ∧ (∀ b, b ≠ a → (Slot.makeActive h a).slotAt b = h.slotAt b)
    ∧ (Slot.makeActive h a).world = h.world
    ∧ (Slot.makeActive h a).calls = h.calls
    ∧ (Slot.makeActive h a).nextSlot = h.nextSlot := by
  refine ⟨rfl, by simp [Slot.makeActive], by simp [Slot.makeActive],
    by simp [Slot.makeActive], ?_, rfl, rfl, rfl⟩
  intro b hb
  simp [Slot.makeActive, Function.update_noteq hb]

theorem filter_makeInactive (h : Heap Args W) (a : SlotId) (l : List SlotId) :
    l.filter (fun x => ((Slot.makeInactive h a).slotAt x)._active)
      = l.filter (fun x => decide (x ≠ a) && (h.slotAt x)._active) := by
  apply List.filter_congr
  intro x _
  by_cases hx : x = a
  · subst hx
    simp [(makeInactive_fields h x).2.1]
  · simp [(makeInactive_fields h a).2.2.2.2.1 x hx, hx]

theorem filter_makeActive (h : Heap Args W) (a : SlotId) (l : List SlotId) :
    l.filter (fun x => ((Slot.makeActive h a).slotAt x)._active)
      = l.filter (fun x => decide (x = a) || (h.slotAt x)._active) := by
  apply List.filter_congr
  intro x _
  by_cases hx : x = a
  · subst hx
    simp [(makeActive_fields h x).2.1]
  · simp [(makeActive_fields h a).2.2.2.2.1 x hx, hx]

theorem count_filter_self_or (a : SlotId) (p : SlotId → Bool) (l : List SlotId) :
    (l.filter (fun x => decide (x = a) || p x)).count a = l.count a := by
  induction l with
  | nil => rfl
  | cons x rest ih =>
    by_cases hx : x = a
    · subst hx
      simp [List.filter_cons, ih]
    · by_cases hp : p x = true
      · simp [List.filter_cons, hx, hp, ih, List.count_cons]
      · simp [List.filter_cons, hx, hp, ih, List.count_cons]

/-- C6: for a Slot in the registry of S, after makeInactive the emit does not
invoke its callable while every other active entry is still invoked in order;
after a following makeActive the emit invokes it again, once per registry
occurrence; isActive answers false after makeInactive and true after makeActive,
and a newly created Slot is active. -/
theorem inactive_skipped_active_restored (h : Heap Args W) (S : SignalId) (a : SlotId)
    (args args2 : Args) (hmem : a ∈ (h.signalAt S).slots) :
    (Slot.isActive (Slot.makeInactive h a) a).1 = false
    ∧ (Signal.emit (Slot.makeInactive h a) S args).calls
        = h.calls ++ ((h.signalAt S).slots.filter
            (fun x => decide (x ≠ a) && (h.slotAt x)._active)).map (fun x => (x, args))
    ∧ (∀ e ∈ ((h.signalAt S).slots.filter
            (fun x => decide (x ≠ a) && (h.slotAt x)._active)).map (fun x => (x, args)),
          e.1 ≠ a)
    ∧ (Slot.isActive (Slot.makeActive (Signal.emit (Slot.makeInactive h a) S args) a) a).1 = true
    ∧ (Signal.emit (Slot.makeActive (Signal.emit (Slot.makeInactive h a) S args) a) S args2).calls
        = (Signal.emit (Slot.makeInactive h a) S args).calls
          ++ ((h.signalAt S).slots.filter
              (fun x => decide (x = a) || (h.slotAt x)._active)).map (fun x => (x, args2))
    ∧ ((h.signalAt S).slots.filter (fun x => decide (x = a) || (h.slotAt x)._active)).count a
        = (h.signalAt S).slots.count a
    ∧ 0 < (h.signalAt S).slots.count a
    ∧ (∀ f : Args → W → W, ((Slot.create h f).2.slotAt (Slot.create h f).1)._active = true)
    ∧ (∀ (T : Type) (t : ObjRef W T) (g : T → Args → T),
        ((Slot.createMember h t g).2.slotAt (Slot.createMember h t g).1)._active = true) := by
  obtain ⟨m1, m2, _, _, m5, _, m7, _⟩ := makeInactive_fields h a
  obtain ⟨e3, e4, _, e1, _⟩ := emit_spec (Slot.makeInactive h a) S args
  obtain ⟨n1, n2, _, _, n5, _, n7, _⟩ :=
    makeActive_fields (Signal.emit (Slot.makeInactive h a) S args) a
  obtain ⟨_, _, _, f1, _⟩ := emit_spec
    (Slot.makeActive (Signal.emit (Slot.makeInactive h a) S args) a) S args2
  refine ⟨m2, ?_, ?_, n2, ?_, count_filter_self_or a _ _, List.count_pos_iff.2 hmem, ?_, ?_⟩
  · rw [e1, m1, m7, filter_makeInactive]
  · intro e he
    simp only [List.mem_map, List.mem_filter] at he
    obtain ⟨x, ⟨_, hx⟩, rfl⟩ := he
    simp only [Bool.and_eq_true, decide_eq_true_eq] at hx
    exact hx.1
  · rw [f1, n1, n7, e4, m1, filter_makeActive]
    congr 2
    apply List.filter_congr
    intro x _
    by_cases hx : x = a
    · simp [hx]
    · rw [e3, m5 x hx]
  · intro f
    simp [Slot.create, Heap.alloc, Slot.new]
  · intro T t g
    simp [Slot.createMember, Heap.alloc, Slot.newMember]

/-- C7: makeActive and makeInactive change nothing except the active flag of
their own Slot: every registry, the back-reference and callable of the Slot,
every other Slot, the world and the trace are as before; isActive and
isConnected return the field and leave the whole state as it was. -/
theorem active_flag_frame (h : Heap Args W) (a : SlotId) :
    ((Slot.makeActive h a).signalAt = h.signalAt
      ∧ ((Slot.makeActive h a).slotAt a)._signal = (h.slotAt a)._signal
      ∧ ((Slot.makeActive h a).slotAt a)._slot_function = (h.slotAt a)._slot_function
      ∧ (∀ b, b ≠ a → (Slot.makeActive h a).slotAt b = h.slotAt b)
      ∧ (Slot.makeActive h a).world = h.world
      ∧ (Slot.makeActive h a).calls = h.calls
      ∧ (Slot.makeActive h a).nextSlot = h.nextSlot)
    ∧ ((Slot.makeInactive h a).signalAt = h.signalAt
      ∧ ((Slot.makeInactive h a).slotAt a)._signal = (h.slotAt a)._signal
      ∧ ((Slot.makeInactive h a).slotAt a)._slot_function = (h.slotAt a)._slot_function
      ∧ (∀ b, b ≠ a → (Slot.makeInactive h a).slotAt b = h.slotAt b)
      ∧ (Slot.makeInactive h a).world = h.world
      ∧ (Slot.makeInactive h a).calls = h.calls
      ∧ (Slot.makeInactive h a).nextSlot = h.nextSlot)
    ∧ Slot.isActive h a = ((h.slotAt a)._active, h)
    ∧ Slot.isConnected h a = ((h.slotAt a)._signal, h) := by
  obtain ⟨m1, _, m3, m4, m5, m6, m7, m8⟩ := makeInactive_fields h a
  obtain ⟨n1, _, n3, n4, n5, n6, n7, n8⟩ := makeActive_fields h a
  exact ⟨⟨n1, n3, n4, n5, n6, n7, n8⟩, ⟨m1, m3, m4, m5, m6, m7, m8⟩, rfl, rfl⟩

/-! ## Connection round trip -/

/-- C8: for a Slot that is not connected (back-reference none, not in the
registry of S), isConnected answers none; after connect it answers S; the
disconnect that follows returns true, after which isConnected answers none and
the registry is the one before the connect; a second disconnect returns false. -/
theorem connect_disconnect_roundtrip (h : Heap Args W) (S : SignalId) (a : SlotId)
    (hnone : (h.slotAt a)._signal = none) (hfresh : a ∉ (h.signalAt S).slots) :
    (Slot.isConnected h a).1 = none
    ∧ (Slot.isConnected (Signal.connect h S a) a).1 = some S
    ∧ (Signal.disconnect (Signal.connect h S a) S a).1 = true
    ∧ (Slot.isConnected (Signal.disconnect (Signal.connect h S a) S a).2 a).1 = none
    ∧ ((Signal.disconnect (Signal.connect h S a) S a).2.signalAt S).slots = (h.signalAt S).slots
    ∧ (Signal.disconnect (Signal.disconnect (Signal.connect h S a) S a).2 S a).1 = false := by
  have hm : a ∈ ((Signal.connect h S a).signalAt S).slots := by
    rw [connect_slots]
    simp
  have hd := disconnect_of_mem (Signal.connect h S a) S a hm
  have hreg : ((Signal.disconnect (Signal.connect h S a) S a).2.signalAt S).slots
      = (h.signalAt S).slots := by
    rw [hd, connect_slots, List.erase_append_right _ hfresh]
    simp
  refine ⟨hnone, by simp [Slot.isConnected, connect_slotAt_self], by rw [hd], ?_, hreg, ?_⟩
  · rw [hd]
    simp [Slot.isConnected]
  · rw [disconnect_of_not_mem _ S a (by rw [hreg]; exact hfresh)]

/-! ## The free connect functions -/

theorem nextSlot_not_registered (h : Heap Args W) (hal : Allocated h) (S : SignalId) :
    h.nextSlot ∉ (h.signalAt S).slots :=
  fun hm => Nat.lt_irrefl _ (hal S _ hm)

theorem Allocated_connect (h : Heap Args W) (S : SignalId) (a : SlotId) (hal : Allocated h)
    (ha : a < h.nextSlot) : Allocated (Signal.connect h S a) := by
  intro S2 x hx
  show x < h.nextSlot
  by_cases hS : S2 = S
  · subst hS
    rw [connect_slots, List.mem_append, List.mem_singleton] at hx
    rcases hx with hx | hx
    · exact hal S2 x hx
    · rw [hx]
      exact ha
  · rw [connect_signalAt_ne h S a S2 hS] at hx
    exact hal S2 x hx

/-- A Slot just returned by a create function is connected nowhere: its
back-reference is none and no registry holds it. -/
theorem create_not_connected (h : Heap Args W) (f : Args → W → W) (hal : Allocated h) :
    ((Slot.create h f).2.slotAt (Slot.create h f).1)._signal = none
    ∧ (∀ S, (Slot.create h f).1 ∉ ((Slot.create h f).2.signalAt S).slots) :=
  ⟨by simp [Slot.create, Heap.alloc, Slot.new], nextSlot_not_registered h hal⟩

/-- Allocating a Slot object and connecting it: the Slot is new, it is the last
registry entry, and an emit runs the old entries and then the new one. -/
theorem alloc_connect_spec (h : Heap Args W) (sig : SignalId) (s : Slot Args W) (args : Args)
    (hal : Allocated h) (hact : s._active = true) :
    (∀ S, (Heap.alloc h s).1 ∉ (h.signalAt S).slots)
    ∧ (Signal.connect (Heap.alloc h s).2 sig (Heap.alloc h s).1).slotAt (Heap.alloc h s).1
        = { s with _signal := some sig }
    ∧ (∀ b, b ≠ (Heap.alloc h s).1 →
        (Signal.connect (Heap.alloc h s).2 sig (Heap.alloc h s).1).slotAt b = h.slotAt b)
    ∧ ((Signal.connect (Heap.alloc h s).2 sig (Heap.alloc h s).1).signalAt sig).slots
        = (h.signalAt sig).slots ++ [(Heap.alloc h s).1]
    ∧ (Signal.emit (Signal.connect (Heap.alloc h s).2 sig (Heap.alloc h s).1) sig args).calls
        = (Signal.emit h sig args).calls ++ [((Heap.alloc h s).1, args)]
    ∧ (Signal.emit (Signal.connect (Heap.alloc h s).2 sig (Heap.alloc h s).1) sig args).world
        = s._slot_function args (Signal.emit h sig args).world := by
  have hnew := nextSlot_not_registered h hal
  have hself : (Signal.connect (Heap.alloc h s).2 sig (Heap.alloc h s).1).slotAt (Heap.alloc h s).1
      = { s with _signal := some sig } := by
    rw [connect_slotAt_self]
    simp [Heap.alloc]
  have hother : ∀ b, b ≠ (Heap.alloc h s).1 →
      (Signal.connect (Heap.alloc h s).2 sig (Heap.alloc h s).1).slotAt b = h.slotAt b := by
    intro b hb
    rw [connect_slotAt_ne _ sig _ b hb]
    exact Function.update_noteq hb _ _
  have hreg : ((Signal.connect (Heap.alloc h s).2 sig (Heap.alloc h s).1).signalAt sig).slots
      = (h.signalAt sig).slots ++ [(Heap.alloc h s).1] := connect_slots _ sig _
  have hfil : (h.signalAt sig).slots.filter
        (fun x => ((Signal.connect (Heap.alloc h s).2 sig (Heap.alloc h s).1).slotAt x)._active)
      = (h.signalAt sig).slots.filter (fun x => (h.slotAt x)._active) := by
    apply List.filter_congr
    intro x hx
    have hne : x ≠ (Heap.alloc h s).1 := fun e => hnew sig (by rw [e] at hx; exact hx)
    rw [hother x hne]
  obtain ⟨_, _, _, e4, e5⟩ :=
    emit_spec (Signal.connect (Heap.alloc h s).2 sig (Heap.alloc h s).1) sig args
  obtain ⟨_, _, _, o4, o5⟩ := emit_spec h sig args
  refine ⟨hnew, hself, hother, hreg, ?_, ?_⟩
  · rw [e4, o4, hreg, List.filter_append, hfil]
    simp [List.filter_cons, hself, hact]
    rfl
  · rw [e5, o5, hreg, List.filter_append, hfil, List.foldl_append]
    simp only [List.filter_cons, hself, hact, if_true, List.filter_nil, List.foldl_cons,
      List.foldl_nil]
    congr 1
    apply List.foldl_ext
    intro w x hx
    have hxm : x ∈ (h.signalAt sig).slots := (List.mem_filter.1 hx).1
    have hne : x ≠ (Heap.alloc h s).1 := fun e => hnew sig (by rw [e] at hxm; exact hxm)
    rw [hother x hne]

/-- C9: both free connect overloads return the handle of a newly created Slot
(one that no registry held before) that is active, whose back-reference is sig
and that is the last entry of the registry of sig, the earlier entries and every
other Slot being unchanged; the following emit runs as on the old state and then
calls the wrapped function, or the member function on the bound object, once
with the emitted arguments. -/
theorem free_connect_registers_new_slot (h : Heap Args W) (sig : SignalId)
    (f : Args → W → W) (t : ObjRef W T) (g : T → Args → T) (args : Args)
    (hal : Allocated h) :
    ((∀ S, (connect h sig f).1 ∉ (h.signalAt S).slots)
      ∧ ((connect h sig f).2.slotAt (connect h sig f).1)._active = true
      ∧ ((connect h sig f).2.slotAt (connect h sig f).1)._signal = some sig
      ∧ ((connect h sig f).2.signalAt sig).slots = (h.signalAt sig).slots ++ [(connect h sig f).1]
      ∧ (∀ b, b ≠ (connect h sig f).1 → (connect h sig f).2.slotAt b = h.slotAt b)
      ∧ (Signal.emit (connect h sig f).2 sig args).calls
          = (Signal.emit h sig args).calls ++ [((connect h sig f).1, args)]
      ∧ (∀ e ∈ ((h.signalAt sig).slots.filter (fun x => (h.slotAt x)._active)).map
            (fun x => (x, args)), e.1 ≠ (connect h sig f).1)
      ∧ (Signal.emit (connect h sig f).2 sig args).world = f args (Signal.emit h sig args).world)
    ∧ ((∀ S, (connectMember h sig t g).1 ∉ (h.signalAt S).slots)
      ∧ ((connectMember h sig t g).2.slotAt (connectMember h sig t g).1)._active = true
      ∧ ((connectMember h sig t g).2.slotAt (connectMember h sig t g).1)._signal = some sig
      ∧ ((connectMember h sig t g).2.signalAt sig).slots
          = (h.signalAt sig).slots ++ [(connectMember h sig t g).1]
      ∧ (∀ b, b ≠ (connectMember h sig t g).1 → (connectMember h sig t g).2.slotAt b = h.slotAt b)
      ∧ (Signal.emit (connectMember h sig t g).2 sig args).calls
          = (Signal.emit h sig args).calls ++ [((connectMember h sig t g).1, args)]
      ∧ (∀ e ∈ ((h.signalAt sig).slots.filter (fun x => (h.slotAt x)._active)).map
            (fun x => (x, args)), e.1 ≠ (connectMember h sig t g).1)
      ∧ (Signal.emit (connectMember h sig t g).2 sig args).world
          = t.write (g (t.read (Signal.emit h sig args).world) args)
              (Signal.emit h sig args).world) := by
  have hold : ∀ e ∈ ((h.signalAt sig).slots.filter (fun x => (h.slotAt x)._active)).map
      (fun x => (x, args)), e.1 ≠ h.nextSlot := by
    intro e he
    simp only [List.mem_map, List.mem_filter] at he
    obtain ⟨x, ⟨hx, _⟩, rfl⟩ := he
    exact fun e => nextSlot_not_registered h hal sig (by rw [← e]; exact hx)
  constructor
  · obtain ⟨a1, a2, a3, a4, a5, a6⟩ := alloc_connect_spec h sig (Slot.new f) args hal rfl
    exact ⟨a1, by rw [show (connect h sig f).2.slotAt (connect h sig f).1 = _ from a2]; rfl,
      by rw [show (connect h sig f).2.slotAt (connect h sig f).1 = _ from a2], a4, a3, a5,
      hold, a6⟩
  · obtain ⟨a1, a2, a3, a4, a5, a6⟩ := alloc_connect_spec h sig (Slot.newMember t g) args hal rfl
    exact ⟨a1,
      by rw [show (connectMember h sig t g).2.slotAt (connectMember h sig t g).1 = _ from a2]; rfl,
      by rw [show (connectMember h sig t g).2.slotAt (connectMember h sig t g).1 = _ from a2],
      a4, a3, a5, hold, a6⟩

/-! ## The theorems at concrete states -/

theorem Allocated_pairHeap : Allocated pairHeap :=
  Allocated_connect pairBase 0 0 (fun _ x hx => absurd hx (List.not_mem_nil x)) (by decide)

theorem emit_calls_active_in_order_witness :
    (Signal.emit busy 0 5).calls = [(1, 5), (1, 5), (3, 5)]
    ∧ (Signal.emit busy 0 5).world = 15
    ∧ Signal.call busy 0 5 = Signal.emit busy 0 5 :=
  emit_calls_active_in_order busy 0 5

theorem Signal_connect_appends_witness :
    ((Signal.connect busy 0 1).signalAt 0).slots = [1, 2, 1, 3, 1]
    ∧ ((Signal.connect busy 7 2).slotAt 2)._signal = some 7
    ∧ ((Signal.connect busy 7 2).slotAt 2)._active = false :=
  ⟨(Signal_connect_appends busy 0 1).1, (Signal_connect_appends busy 7 2).2.1,
    (Signal_connect_appends busy 7 2).2.2.1⟩

theorem Signal_disconnect_present_witness :
    1 ∈ (busy.signalAt 0).slots
    ∧ (Signal.disconnect busy 0 1).1 = true
    ∧ ((Signal.disconnect busy 0 1).2.signalAt 0).slots = [2, 1, 3]
    ∧ ((Signal.disconnect busy 0 1).2.slotAt 1)._signal = none :=
  ⟨by decide, (Signal_disconnect_present busy 0 1 (by decide)).1,
    (Signal_disconnect_present busy 0 1 (by decide)).2.2.1,
    (Signal_disconnect_present busy 0 1 (by decide)).2.2.2.1⟩

theorem Signal_disconnect_absent_witness :
    5 ∉ (busy.signalAt 0).slots
    ∧ Signal.disconnect busy 0 5 = (false, busy)
    ∧ (Signal.disconnect busy 1 1).1 = false :=
  ⟨by decide, (Signal_disconnect_absent busy 0 5).1 (by decide),
    Bool.eq_false_iff.2 (fun e => absurd ((Signal_disconnect_absent busy 1 1).2.1 e) (by decide))⟩

theorem emit_order_is_connect_order_witness :
    (demo.signalAt 0).slots = []
    ∧ (∀ x ∈ [2, 0, 1], (demo.slotAt x)._active = true)
    ∧ (Signal.emit (connectAll demo 0 [2, 0, 1]) 0 7).calls = [(2, 7), (0, 7), (1, 7)]
    ∧ (Signal.emit (connectAll demo 0 [2, 0, 1]) 0 7).world = 21 :=
  ⟨rfl, by decide,
    (emit_order_is_connect_order demo 0 [2, 0, 1] 7 rfl (by decide)).1,
    (emit_order_is_connect_order demo 0 [2, 0, 1] 7 rfl (by decide)).2.1⟩

theorem inactive_skipped_active_restored_witness :
    3 ∈ (busy.signalAt 0).slots
    ∧ (Signal.emit (Slot.makeInactive busy 3) 0 5).calls = [(1, 5), (1, 5)]
    ∧ (Signal.emit (Slot.makeActive (Signal.emit (Slot.makeInactive busy 3) 0 5) 3) 0 6).calls
        = [(1, 5), (1, 5), (1, 6), (1, 6), (3, 6)] :=
  ⟨by decide, (inactive_skipped_active_restored busy 0 3 5 6 (by decide)).2.1,
    (inactive_skipped_active_restored busy 0 3 5 6 (by decide)).2.2.2.2.1⟩

theorem active_flag_frame_witness :
    (Slot.makeInactive busy 1).signalAt = busy.signalAt
    ∧ ((Slot.makeInactive busy 1).slotAt 1)._signal = some 0
    ∧ (Slot.isActive busy 2).1 = false
    ∧ (Slot.isConnected busy 2).1 = some 0 :=
  ⟨(active_flag_frame busy 1).2.1.1, (active_flag_frame busy 1).2.1.2.1,
    congrArg Prod.fst (active_flag_frame busy 2).2.2.1,
    congrArg Prod.fst (active_flag_frame busy 2).2.2.2⟩

theorem connect_disconnect_roundtrip_witness :
    ((Slot.create busy (fun n w => w + n)).2.slotAt 4)._signal = none
    ∧ 4 ∉ ((Slot.create busy (fun n w => w + n)).2.signalAt 0).slots
    ∧ (Slot.isConnected (Signal.connect (Slot.create busy (fun n w => w + n)).2 0 4) 4).1 = some 0
    ∧ (Signal.disconnect (Signal.connect (Slot.create busy (fun n w => w + n)).2 0 4) 0 4).1 = true
    ∧ (Signal.disconnect (Signal.disconnect
          (Signal.connect (Slot.create busy (fun n w => w + n)).2 0 4) 0 4).2 0 4).1 = false :=
  ⟨rfl, by decide,
    (connect_disconnect_roundtrip (Slot.create busy (fun n w => w + n)).2 0 4 rfl (by decide)).2.1,
    (connect_disconnect_roundtrip (Slot.create busy (fun n w => w + n)).2 0 4 rfl
      (by decide)).2.2.1,
    (connect_disconnect_roundtrip (Slot.create busy (fun n w => w + n)).2 0 4 rfl
      (by decide)).2.2.2.2.2⟩

theorem free_connect_registers_new_slot_witness :
    Allocated pairHeap
    ∧ (connect pairHeap 0 (fun n w => (w.1, w.2 + 10 * n))).1 = 1
    ∧ (Signal.emit (connect pairHeap 0 (fun n w => (w.1, w.2 + 10 * n))).2 0 3).calls
        = [(0, 3), (1, 3)]
    ∧ (Signal.emit (connect pairHeap 0 (fun n w => (w.1, w.2 + 10 * n))).2 0 3).world = (0, 33)
    ∧ (Signal.emit (connectMember pairHeap 0 sumRef (fun t n => t + n)).2 0 3).calls
        = [(0, 3), (1, 3)]
    ∧ (Signal.emit (connectMember pairHeap 0 sumRef (fun t n => t + n)).2 0 3).world = (3, 3) :=
  ⟨Allocated_pairHeap, rfl,
    (free_connect_registers_new_slot pairHeap 0 (fun n w => (w.1, w.2 + 10 * n)) sumRef
      (fun t n => t + n) 3 Allocated_pairHeap).1.2.2.2.2.2.1,
    (free_connect_registers_new_slot pairHeap 0 (fun n w => (w.1, w.2 + 10 * n)) sumRef
      (fun t n => t + n) 3 Allocated_pairHeap).1.2.2.2.2.2.2.2,
    (free_connect_registers_new_slot pairHeap 0 (fun n w => (w.1, w.2 + 10 * n)) sumRef
      (fun t n => t + n) 3 Allocated_pairHeap).2.2.2.2.2.2.1,
    (free_connect_registers_new_slot pairHeap 0 (fun n w => (w.1, w.2 + 10 * n)) sumRef
      (fun t n => t + n) 3 Allocated_pairHeap).2.2.2.2.2.2.2.2⟩

/-! ## Counting invocations -/

theorem emitted_eq (h : Heap Args W) (S : SignalId) (args : Args) :
    emitted h S args
      = ((h.signalAt S).slots.filter (fun x => (h.slotAt x)._active)).map (fun x => (x, args)) := by
  unfold emitted
  rw [(emit_spec h S args).2.2.2.1, List.drop_left]

theorem invocations_map (a : SlotId) (args : Args) (l : List SlotId) :
    invocations a (l.map (fun x => (x, args))) = l.count a := by
  unfold invocations
  rw [List.map_map]
  have e : (Prod.fst ∘ fun x : SlotId => (x, args)) = id := rfl
  rw [e, List.map_id]

theorem invocations_emitted (h : Heap Args W) (S : SignalId) (args : Args) (a : SlotId) :
    invocations a (emitted h S args)
      = ((h.signalAt S).slots.filter (fun x => (h.slotAt x)._active)).count a := by
  rw [emitted_eq, invocations_map]

theorem invocations_emitted_active (h : Heap Args W) (S : SignalId) (args : Args) (a : SlotId)
    (hact : (h.slotAt a)._active = true) :
    invocations a (emitted h S args) = (h.signalAt S).slots.count a := by
  rw [invocations_emitted]
  exact List.count_filter hact

theorem erase_eq_filter_of_count_one (a : SlotId) (l : List SlotId) (hc : l.count a = 1) :
    l.erase a = l.filter (fun x => decide (x ≠ a)) := by
  induction l with
  | nil => simp at hc
  | cons x rest ih =>
    by_cases hx : x = a
    · subst hx
      have h0 : rest.count x = 0 := by simpa using hc
      have hn : x ∉ rest := List.count_eq_zero.1 h0
      have hf : rest.filter (fun y => decide (y ≠ x)) = rest := by
        apply List.filter_eq_self.2
        intro y hy
        have hne : y ≠ x := fun e => hn (e ▸ hy)
        simpa using hne
      rw [List.erase_cons_head, List.filter_cons, hf]
      simp
    · have hc2 : rest.count a = 1 := by
        rw [List.count_cons] at hc
        have hxa : (x == a) = false := by simpa using hx
        simpa [hxa] using hc
      rw [List.erase_cons_tail (by simpa using hx), ih hc2]
      simp [List.filter_cons, hx]

theorem disconnect_active (h : Heap Args W) (S : SignalId) (a x : SlotId) :
    ((Signal.disconnect h S a).2.slotAt x)._active = (h.slotAt x)._active := by
  by_cases hm : a ∈ (h.signalAt S).slots
  · rw [disconnect_of_mem h S a hm]
    by_cases hx : x = a
    · subst hx
      simp
    · simp [Function.update_noteq hx]
  · rw [disconnect_of_not_mem h S a hm]

theorem disconnect_slot_function (h : Heap Args W) (S : SignalId) (a x : SlotId) :
    ((Signal.disconnect h S a).2.slotAt x)._slot_function = (h.slotAt x)._slot_function := by
  by_cases hm : a ∈ (h.signalAt S).slots
  · rw [disconnect_of_mem h S a hm]
    by_cases hx : x = a
    · subst hx
      simp
    · simp [Function.update_noteq hx]
  · rw [disconnect_of_not_mem h S a hm]

theorem disconnect_slots_of_mem (h : Heap Args W) (S : SignalId) (a : SlotId)
    (hm : a ∈ (h.signalAt S).slots) :
    ((Signal.disconnect h S a).2.signalAt S).slots = (h.signalAt S).slots.erase a := by
  rw [disconnect_of_mem h S a hm]
  simp

theorem disconnect_world_calls (h : Heap Args W) (S : SignalId) (a : SlotId) :
    (Signal.disconnect h S a).2.world = h.world
    ∧ (Signal.disconnect h S a).2.calls = h.calls := by
  by_cases hm : a ∈ (h.signalAt S).slots
  · rw [disconnect_of_mem h S a hm]
    exact ⟨rfl, rfl⟩
  · rw [disconnect_of_not_mem h S a hm]
    exact ⟨rfl, rfl⟩

theorem emitted_after_disconnect_once (h : Heap Args W) (S : SignalId) (a : SlotId) (args : Args)
    (hone : (h.signalAt S).slots.count a = 1) :
    emitted (Signal.disconnect h S a).2 S args
      = ((h.signalAt S).slots.filter (fun x => decide (x ≠ a) && (h.slotAt x)._active)).map
          (fun x => (x, args)) := by
  have hm : a ∈ (h.signalAt S).slots := List.count_pos_iff.1 (by rw [hone]; exact Nat.one_pos)
  rw [emitted_eq, disconnect_slots_of_mem h S a hm, erase_eq_filter_of_count_one a _ hone,
    List.filter_filter]
  congr 1
  apply List.filter_congr
  intro x _
  rw [disconnect_active, Bool.and_comm]

theorem filter_emitted_ne (h : Heap Args W) (S : SignalId) (a : SlotId) (args : Args) :
    (emitted h S args).filter (fun e => decide (e.1 ≠ a))
      = ((h.signalAt S).slots.filter (fun x => decide (x ≠ a) && (h.slotAt x)._active)).map
          (fun x => (x, args)) := by
  rw [emitted_eq, List.filter_map, List.filter_filter]
  rfl

/-- C13: when the Slot occurs exactly once in the registry of S, the disconnect
succeeds and the following emit makes the calls of the emit before it with those
of the disconnected Slot removed: its callable is not invoked at all, every
other Slot is invoked as often as before and in the same order, and the world
is threaded through the remaining callables only. -/
theorem disconnected_once_not_invoked (h : Heap Args W) (S : SignalId) (a : SlotId)
    (args : Args) (hone : (h.signalAt S).slots.count a = 1) :
    (Signal.disconnect h S a).1 = true
    ∧ emitted (Signal.disconnect h S a).2 S args
        = (emitted h S args).filter (fun e => decide (e.1 ≠ a))
    ∧ invocations a (emitted (Signal.disconnect h S a).2 S args) = 0
    ∧ (∀ b, b ≠ a → invocations b (emitted (Signal.disconnect h S a).2 S args)
        = invocations b (emitted h S args))
    ∧ (Signal.emit (Signal.disconnect h S a).2 S args).world
        = ((h.signalAt S).slots.filter (fun x => decide (x ≠ a) && (h.slotAt x)._active)).foldl
            (fun w x => (h.slotAt x)._slot_function args w) h.world := by
  have hm : a ∈ (h.signalAt S).slots := List.count_pos_iff.1 (by rw [hone]; exact Nat.one_pos)
  have he := emitted_after_disconnect_once h S a args hone
  refine ⟨by rw [disconnect_of_mem h S a hm], by rw [he, filter_emitted_ne], ?_, ?_, ?_⟩
  · rw [he, invocations_map]
    apply List.count_eq_zero.2
    intro hin
    have := (List.mem_filter.1 hin).2
    simp at this
  · intro b hb
    rw [he, invocations_map, invocations_emitted, ← List.filter_filter]
    have hba : (fun x => decide (x ≠ a)) b = true := by simpa using hb
    exact List.count_filter hba
  · rw [(emit_spec _ S args).2.2.2.2, disconnect_slots_of_mem h S a hm,
      erase_eq_filter_of_count_one a _ hone, List.filter_filter, (disconnect_world_calls h S a).1]
    have hf : (h.signalAt S).slots.filter
          (fun x => ((Signal.disconnect h S a).2.slotAt x)._active && decide (x ≠ a))
        = (h.signalAt S).slots.filter (fun x => decide (x ≠ a) && (h.slotAt x)._active) := by
      apply List.filter_congr
      intro x _
      rw [disconnect_active, Bool.and_comm]
    rw [hf]
    apply List.foldl_ext
    intro w x _
    rw [disconnect_slot_function]

theorem emitted_after_connect (h : Heap Args W) (S : SignalId) (a : SlotId) (args : Args)
    (hact : (h.slotAt a)._active = true) :
    emitted (Signal.connect h S a) S args = emitted h S args ++ [(a, args)] := by
  rw [emitted_eq, emitted_eq, connect_slots, List.filter_append, List.map_append]
  have hf : ∀ l : List SlotId, l.filter (fun x => ((Signal.connect h S a).slotAt x)._active)
      = l.filter (fun x => (h.slotAt x)._active) := by
    intro l
    apply List.filter_congr
    intro x _
    rw [connect_active]
  rw [hf, hf]
  simp [List.filter_cons, hact]

theorem emitted_after_connect_other (h : Heap Args W) (S S2 : SignalId) (a : SlotId)
    (args : Args) (hne : S ≠ S2) :
    emitted (Signal.connect h S2 a) S args = emitted h S args := by
  rw [emitted_eq, emitted_eq, connect_signalAt_ne h S2 a S hne]
  congr 1
  apply List.filter_congr
  intro x _
  rw [connect_active]

theorem emitted_after_emit (h : Heap Args W) (S S2 : SignalId) (args args2 : Args) :
    emitted (Signal.emit h S2 args2) S args = emitted h S args := by
  rw [emitted_eq, emitted_eq, (emit_spec h S2 args2).1, (emit_spec h S2 args2).2.1]

theorem invocations_append (a : SlotId) (l1 l2 : List (SlotId × Args)) :
    invocations a (l1 ++ l2) = invocations a l1 + invocations a l2 := by
  unfold invocations
  rw [List.map_append, List.count_append]

/-- C14: a Slot that is active and registered once with S, after a successful
disconnect and a new connect to S, has back-reference S and a single registry
entry, the last one; the emit that follows, and the one after it, invoke its
callable exactly once, after the calls of the Slots that stayed connected. -/
theorem reconnect_restores_single_registration (h : Heap Args W) (S : SignalId) (a : SlotId)
    (args args2 : Args) (hone : (h.signalAt S).slots.count a = 1)
    (hact : (h.slotAt a)._active = true) :
    (Signal.disconnect h S a).1 = true
    ∧ ((Signal.connect (Signal.disconnect h S a).2 S a).slotAt a)._signal = some S
    ∧ ((Signal.connect (Signal.disconnect h S a).2 S a).signalAt S).slots
        = (h.signalAt S).slots.filter (fun x => decide (x ≠ a)) ++ [a]
    ∧ ((Signal.connect (Signal.disconnect h S a).2 S a).signalAt S).slots.count a = 1
    ∧ emitted (Signal.connect (Signal.disconnect h S a).2 S a) S args
        = (emitted h S args).filter (fun e => decide (e.1 ≠ a)) ++ [(a, args)]
    ∧ invocations a (emitted (Signal.connect (Signal.disconnect h S a).2 S a) S args) = 1
    ∧ invocations a (emitted
        (Signal.emit (Signal.connect (Signal.disconnect h S a).2 S a) S args) S args2) = 1 := by
  have hm : a ∈ (h.signalAt S).slots := List.count_pos_iff.1 (by rw [hone]; exact Nat.one_pos)
  have hreg : ((Signal.connect (Signal.disconnect h S a).2 S a).signalAt S).slots
      = (h.signalAt S).slots.filter (fun x => decide (x ≠ a)) ++ [a] := by
    rw [connect_slots, disconnect_slots_of_mem h S a hm, erase_eq_filter_of_count_one a _ hone]
  have hact2 : ((Signal.disconnect h S a).2.slotAt a)._active = true := by
    rw [disconnect_active]
    exact hact
  have hcount : ((Signal.connect (Signal.disconnect h S a).2 S a).signalAt S).slots.count a
      = 1 := by
    rw [hreg, List.count_append]
    have h0 : ((h.signalAt S).slots.filter (fun x => decide (x ≠ a))).count a = 0 := by
      apply List.count_eq_zero.2
      intro hin
      have := (List.mem_filter.1 hin).2
      simp at this
    rw [h0]
    simp
  have hactc : ((Signal.connect (Signal.disconnect h S a).2 S a).slotAt a)._active = true := by
    rw [connect_active]
    exact hact2
  have hemit : ∀ args3 : Args,
      emitted (Signal.connect (Signal.disconnect h S a).2 S a) S args3
        = (emitted h S args3).filter (fun e => decide (e.1 ≠ a)) ++ [(a, args3)] := by
    intro args3
    rw [emitted_after_connect _ S a args3 hact2, emitted_after_disconnect_once h S a args3 hone,
      filter_emitted_ne]
  refine ⟨by rw [disconnect_of_mem h S a hm], by rw [connect_slotAt_self], hreg, hcount,
    hemit args, ?_, ?_⟩
  · rw [invocations_emitted_active _ S args a hactc, hcount]
  · rw [emitted_after_emit, invocations_emitted_active _ S args2 a hactc, hcount]

theorem disconnect_true_mem (h : Heap Args W) (S : SignalId) (a : SlotId)
    (ht : (Signal.disconnect h S a).1 = true) : a ∈ (h.signalAt S).slots := by
  by_cases hm : a ∈ (h.signalAt S).slots
  · exact hm
  · rw [disconnect_of_not_mem h S a hm] at ht
    simp at ht

theorem disconnect_count (h : Heap Args W) (S : SignalId) (a : SlotId)
    (hm : a ∈ (h.signalAt S).slots) :
    ((Signal.disconnect h S a).2.signalAt S).slots.count a + 1 = (h.signalAt S).slots.count a := by
  rw [disconnect_slots_of_mem h S a hm, List.count_erase_self]
  have hp : 0 < (h.signalAt S).slots.count a := List.count_pos_iff.2 hm
  omega

/-- C15: duplicates are kept.  Connecting an active Slot k times to S adds k
registry entries for it, and an emit then invokes its callable once per entry:
k times when the Slot was not registered with S before; every successful
disconnect lowers the number of entries, and of invocations per emit, by one. -/
theorem duplicates_not_deduplicated (h : Heap Args W) (S : SignalId) (a : SlotId) (k : Nat)
    (args : Args) (hact : (h.slotAt a)._active = true) :
    ((connectAll h S (List.replicate k a)).signalAt S).slots.count a
        = (h.signalAt S).slots.count a + k
    ∧ invocations a (emitted (connectAll h S (List.replicate k a)) S args)
        = (h.signalAt S).slots.count a + k
    ∧ (a ∉ (h.signalAt S).slots →
        ((connectAll h S (List.replicate k a)).signalAt S).slots.count a = k
        ∧ invocations a (emitted (connectAll h S (List.replicate k a)) S args) = k)
    ∧ (∀ g : Heap Args W, (Signal.disconnect g S a).1 = true →
        ((Signal.disconnect g S a).2.signalAt S).slots.count a + 1 = (g.signalAt S).slots.count a
        ∧ ((g.slotAt a)._active = true →
            invocations a (emitted (Signal.disconnect g S a).2 S args) + 1
              = invocations a (emitted g S args))) := by
  obtain ⟨i1, i2, _, _, _⟩ := connectAll_spec (List.replicate k a) S h
  have hcount : ((connectAll h S (List.replicate k a)).signalAt S).slots.count a
      = (h.signalAt S).slots.count a + k := by
    rw [i1, List.count_append, List.count_replicate_self]
  have hinv : invocations a (emitted (connectAll h S (List.replicate k a)) S args)
      = (h.signalAt S).slots.count a + k := by
    rw [invocations_emitted_active _ S args a (by rw [i2 a]; exact hact), hcount]
  refine ⟨hcount, hinv, ?_, ?_⟩
  · intro hn
    have h0 : (h.signalAt S).slots.count a = 0 := List.count_eq_zero.2 hn
    rw [hcount, hinv, h0]
    simp
  · intro g ht
    have hm := disconnect_true_mem g S a ht
    refine ⟨disconnect_count g S a hm, ?_⟩
    intro hga
    rw [invocations_emitted_active _ S args a (by rw [disconnect_active]; exact hga),
      invocations_emitted_active g S args a hga]
    exact disconnect_count g S a hm

/-- C16: for distinct Signals S1 and S2 and a Slot in the registry of S1,
connecting the Slot to S2 leaves the registry of S1 as it was (the Slot is still
in it), appends the Slot to the registry of S2 and sets its back-reference to
S2; an emit of S1 makes the same calls as before, so an active Slot is still
invoked once per entry it has in the registry of S1. -/
theorem reconnect_without_detach (h : Heap Args W) (S1 S2 : SignalId) (a : SlotId)
    (args : Args) (hne : S1 ≠ S2) (hmem : a ∈ (h.signalAt S1).slots) :
    (Signal.connect h S2 a).signalAt S1 = h.signalAt S1
    ∧ a ∈ ((Signal.connect h S2 a).signalAt S1).slots
    ∧ ((Signal.connect h S2 a).signalAt S2).slots = (h.signalAt S2).slots ++ [a]
    ∧ ((Signal.connect h S2 a).slotAt a)._signal = some S2
    ∧ ((Signal.connect h S2 a).slotAt a)._signal ≠ some S1
    ∧ emitted (Signal.connect h S2 a) S1 args = emitted h S1 args
    ∧ ((h.slotAt a)._active = true →
        invocations a (emitted (Signal.connect h S2 a) S1 args) = (h.signalAt S1).slots.count a
        ∧ 0 < invocations a (emitted (Signal.connect h S2 a) S1 args)) := by
  have hreg := connect_signalAt_ne h S2 a S1 hne
  have hback : ((Signal.connect h S2 a).slotAt a)._signal = some S2 := by
    rw [connect_slotAt_self]
  refine ⟨hreg, by rw [hreg]; exact hmem, connect_slots h S2 a, hback, ?_,
    emitted_after_connect_other h S1 S2 a args hne, ?_⟩
  · rw [hback]
    exact fun e => hne (Option.some.inj e).symm
  · intro hact
    have hi : invocations a (emitted (Signal.connect h S2 a) S1 args)
        = (h.signalAt S1).slots.count a := by
      rw [emitted_after_connect_other h S1 S2 a args hne, invocations_emitted_active h S1 args a hact]
    exact ⟨hi, by rw [hi]; exact List.count_pos_iff.2 hmem⟩

/-- C19: emit is a pure dispatch.  It leaves every registry, every Slot object
(back-reference, active flag, callable) and the allocation frontier as they
were, so a second emit with the same arguments makes the same calls again; on an
empty registry it invokes nothing and leaves the whole state as it was. -/
theorem emit_pure_dispatch (h : Heap Args W) (S : SignalId) (args : Args) :
    (Signal.emit h S args).signalAt = h.signalAt
    ∧ (Signal.emit h S args).slotAt = h.slotAt
    ∧ (Signal.emit h S args).nextSlot = h.nextSlot
    ∧ (Signal.emit h S args).calls = h.calls ++ emitted h S args
    ∧ emitted (Signal.emit h S args) S args = emitted h S args
    ∧ (Signal.emit (Signal.emit h S args) S args).calls
        = h.calls ++ emitted h S args ++ emitted h S args
    ∧ ((h.signalAt S).slots = [] → emitted h S args = [] ∧ Signal.emit h S args = h) := by
  obtain ⟨e1, e2, e3, e4, _⟩ := emit_spec h S args
  have hc : (Signal.emit h S args).calls = h.calls ++ emitted h S args := by
    rw [emitted_eq, e4]
  have hc2 : (Signal.emit (Signal.emit h S args) S args).calls
      = (Signal.emit h S args).calls ++ emitted (Signal.emit h S args) S args := by
    rw [emitted_eq, (emit_spec (Signal.emit h S args) S args).2.2.2.1]
  refine ⟨e2, e1, e3, hc, emitted_after_emit h S S args args, ?_, ?_⟩
  · rw [hc2, emitted_after_emit, hc]
  · intro hempty
    refine ⟨by rw [emitted_eq, hempty]; rfl, ?_⟩
    unfold Signal.emit
    rw [hempty]
    rfl

/-! ## Invariants of the reachable states -/

theorem connectNew_eq (h : Heap Args W) (S : SignalId) (f : Args → W → W) :
    (connect h S f).2 = Signal.connect (Slot.create h f).2 S h.nextSlot := rfl

theorem run_append (h : Heap Args W) (ops1 ops2 : List (Op Args W)) :
    run h (ops1 ++ ops2) = run (run h ops1) ops2 := by
  simp [run, List.foldl_append]

theorem BackrefRegistered_connect (h : Heap Args W) (S : SignalId) (a : SlotId)
    (hi : BackrefRegistered h) : BackrefRegistered (Signal.connect h S a) := by
  intro b S2 hb
  by_cases hba : b = a
  · subst hba
    rw [connect_slotAt_self] at hb
    have hS : S = S2 := Option.some.inj hb
    subst hS
    rw [connect_slots]
    simp
  · rw [connect_slotAt_ne h S a b hba] at hb
    have hm := hi b S2 hb
    by_cases hS : S2 = S
    · subst hS
      rw [connect_slots]
      exact List.mem_append_left _ hm
    · rw [connect_signalAt_ne h S a S2 hS]
      exact hm

theorem BackrefRegistered_disconnect (h : Heap Args W) (S : SignalId) (a : SlotId)
    (hi : BackrefRegistered h) : BackrefRegistered (Signal.disconnect h S a).2 := by
  by_cases hm : a ∈ (h.signalAt S).slots
  · intro b S2 hb
    rw [disconnect_of_mem h S a hm] at hb ⊢
    by_cases hba : b = a
    · subst hba
      simp at hb
    · simp only [Function.update_noteq hba] at hb
      have hmb := hi b S2 hb
      by_cases hS : S2 = S
      · subst hS
        simp only [Function.update_same]
        exact (List.mem_erase_of_ne hba).2 hmb
      · simp only [Function.update_noteq hS]
        exact hmb
  · rw [disconnect_of_not_mem h S a hm]
    exact hi

theorem BackrefRegistered_alloc (h : Heap Args W) (s : Slot Args W) (hs : s._signal = none)
    (hi : BackrefRegistered h) : BackrefRegistered (Heap.alloc h s).2 := by
  intro b S2 hb
  by_cases hba : b = h.nextSlot
  · subst hba
    simp [Heap.alloc, hs] at hb
  · have e : (Heap.alloc h s).2.slotAt b = h.slotAt b := Function.update_noteq hba _ _
    rw [e] at hb
    exact hi b S2 hb

theorem BackrefRegistered_apply (h : Heap Args W) (op : Op Args W)
    (hi : BackrefRegistered h) : BackrefRegistered (Op.apply h op) := by
  cases op with
  | connect S a => exact BackrefRegistered_connect h S a hi
  | disconnect S a => exact BackrefRegistered_disconnect h S a hi
  | emit S args =>
    intro b S2 hb
    have e1 := (emit_spec h S args).1
    have e2 := (emit_spec h S args).2.1
    show b ∈ ((Signal.emit h S args).signalAt S2).slots
    rw [e2]
    apply hi
    rw [← e1]
    exact hb
  | makeActive a =>
    intro b S2 hb
    show b ∈ (h.signalAt S2).slots
    apply hi
    by_cases hba : b = a
    · subst hba
      rw [← (makeActive_fields h b).2.2.1]
      exact hb
    · rw [← (makeActive_fields h a).2.2.2.2.1 b hba]
      exact hb
  | makeInactive a =>
    intro b S2 hb
    show b ∈ (h.signalAt S2).slots
    apply hi
    by_cases hba : b = a
    · subst hba
      rw [← (makeInactive_fields h b).2.2.1]
      exact hb
    · rw [← (makeInactive_fields h a).2.2.2.2.1 b hba]
      exact hb
  | create f => exact BackrefRegistered_alloc h (Slot.new f) rfl hi
  | connectNew S f =>
    show BackrefRegistered (connect h S f).2
    rw [connectNew_eq]
    exact BackrefRegistered_connect _ S _ (BackrefRegistered_alloc h (Slot.new f) rfl hi)

theorem BackrefRegistered_run (ops : List (Op Args W)) (h : Heap Args W)
    (hi : BackrefRegistered h) : BackrefRegistered (run h ops) := by
  induction ops generalizing h with
  | nil => exact hi
  | cons op rest ih => exact ih (Op.apply h op) (BackrefRegistered_apply h op hi)

theorem BackrefRegistered_of_Fresh (h : Heap Args W) (hf : Fresh h) : BackrefRegistered h := by
  intro a S hb
  rw [hf.2 a] at hb
  exact absurd hb (by simp)

/-- C17: in every state reached from freshly created Signals and Slots by any
sequence of calls of the public interface (connecting a Slot that is already
connected, or connecting it twice, included), a Slot whose back-reference is S
occurs in the registry of S. -/
theorem backref_names_holding_signal (h0 : Heap Args W) (ops : List (Op Args W))
    (S : SignalId) (a : SlotId) (hfresh : Fresh h0)
    (hback : ((run h0 ops).slotAt a)._signal = some S) :
    a ∈ ((run h0 ops).signalAt S).slots ∧ 1 ≤ ((run h0 ops).signalAt S).slots.count a :=
  ⟨BackrefRegistered_run ops h0 (BackrefRegistered_of_Fresh h0 hfresh) a S hback,
    List.count_pos_iff.2
      (BackrefRegistered_run ops h0 (BackrefRegistered_of_Fresh h0 hfresh) a S hback)⟩

theorem FullInv_of_Fresh (h : Heap Args W) (hf : Fresh h) : FullInv h := by
  refine ⟨?_, ?_, ?_⟩
  · intro S x hx
    rw [hf.1 S] at hx
    exact absurd hx (List.not_mem_nil x)
  · intro S
    rw [hf.1 S]
    exact List.nodup_nil
  · intro S a
    rw [hf.1 S, hf.2 a]
    simp

theorem FullInv_connect (h : Heap Args W) (S : SignalId) (a : SlotId) (hi : FullInv h)
    (ha : a < h.nextSlot) (hnone : (h.slotAt a)._signal = none) :
    FullInv (Signal.connect h S a) := by
  obtain ⟨hal, hnd, hiff⟩ := hi
  have hnot : ∀ S2, a ∉ (h.signalAt S2).slots := by
    intro S2 hm
    have := (hiff S2 a).1 hm
    rw [hnone] at this
    exact absurd this (by simp)
  refine ⟨Allocated_connect h S a hal ha, ?_, ?_⟩
  · intro S2
    by_cases hS : S2 = S
    · subst hS
      rw [connect_slots]
      refine List.nodup_append.2 ⟨hnd S2, List.nodup_singleton a, ?_⟩
      intro x hx hxa
      rw [List.mem_singleton] at hxa
      subst hxa
      exact hnot S2 hx
    · rw [connect_signalAt_ne h S a S2 hS]
      exact hnd S2
  · intro S2 b
    by_cases hba : b = a
    · subst hba
      rw [connect_slotAt_self]
      by_cases hS : S2 = S
      · subst hS
        rw [connect_slots]
        simp
      · rw [connect_signalAt_ne h S b S2 hS]
        constructor
        · intro hm
          exact absurd hm (hnot S2)
        · intro e
          exact absurd (Option.some.inj e).symm hS
    · rw [connect_slotAt_ne h S a b hba, ← hiff S2 b]
      by_cases hS : S2 = S
      · subst hS
        rw [connect_slots, List.mem_append, List.mem_singleton]
        constructor
        · intro hm
          rcases hm with hm | hm
          · exact hm
          · exact absurd hm hba
        · intro hm
          exact Or.inl hm
      · rw [connect_signalAt_ne h S a S2 hS]

theorem FullInv_disconnect (h : Heap Args W) (S : SignalId) (a : SlotId) (hi : FullInv h) :
    FullInv (Signal.disconnect h S a).2 := by
  by_cases hm : a ∈ (h.signalAt S).slots
  · obtain ⟨hal, hnd, hiff⟩ := hi
    have hS : (h.slotAt a)._signal = some S := (hiff S a).1 hm
    rw [disconnect_of_mem h S a hm]
    refine ⟨?_, ?_, ?_⟩
    · intro S2 x hx
      show x < h.nextSlot
      by_cases h2 : S2 = S
      · subst h2
        simp only [Function.update_same] at hx
        exact hal S2 x (List.mem_of_mem_erase hx)
      · simp only [Function.update_noteq h2] at hx
        exact hal S2 x hx
    · intro S2
      by_cases h2 : S2 = S
      · subst h2
        simp only [Function.update_same]
        exact (hnd S2).erase a
      · simp only [Function.update_noteq h2]
        exact hnd S2
    · intro S2 b
      by_cases hba : b = a
      · subst hba
        simp only [Function.update_same]
        constructor
        · intro hx
          exfalso
          by_cases h2 : S2 = S
          · subst h2
            simp only [Function.update_same] at hx
            exact (hnd S2).not_mem_erase hx
          · simp only [Function.update_noteq h2] at hx
            have := (hiff S2 b).1 hx
            rw [hS] at this
            exact h2 (Option.some.inj this).symm
        · intro e
          simp at e
      · simp only [Function.update_noteq hba]
        rw [← hiff S2 b]
        by_cases h2 : S2 = S
        · subst h2
          simp only [Function.update_same]
          exact List.mem_erase_of_ne hba
        · simp only [Function.update_noteq h2]
  · rw [disconnect_of_not_mem h S a hm]
    exact hi

theorem FullInv_alloc (h : Heap Args W) (s : Slot Args W) (hs : s._signal = none)
    (hi : FullInv h) : FullInv (Heap.alloc h s).2 := by
  obtain ⟨hal, hnd, hiff⟩ := hi
  refine ⟨?_, hnd, ?_⟩
  · intro S x hx
    exact Nat.lt_succ_of_lt (hal S x hx)
  · intro S b
    by_cases hb : b = h.nextSlot
    · subst hb
      constructor
      · intro hx
        exact absurd hx (nextSlot_not_registered h hal S)
      · intro e
        simp [Heap.alloc, hs] at e
    · have e : (Heap.alloc h s).2.slotAt b = h.slotAt b := Function.update_noteq hb _ _
      rw [e]
      exact hiff S b

theorem FullInv_of_same (h g : Heap Args W) (hi : FullInv h) (e1 : g.signalAt = h.signalAt)
    (e2 : ∀ a, (g.slotAt a)._signal = (h.slotAt a)._signal) (e3 : g.nextSlot = h.nextSlot) :
    FullInv g := by
  obtain ⟨hal, hnd, hiff⟩ := hi
  refine ⟨?_, ?_, ?_⟩
  · intro S x hx
    rw [e1] at hx
    rw [e3]
    exact hal S x hx
  · intro S
    rw [e1]
    exact hnd S
  · intro S a
    rw [e1, e2 a]
    exact hiff S a

theorem FullInv_apply (h : Heap Args W) (op : Op Args W) (hok : Op.allowed h op = true)
    (hi : FullInv h) : FullInv (Op.apply h op) := by
  cases op with
  | connect S a =>
    simp only [Op.allowed, Bool.and_eq_true, decide_eq_true_eq, Option.isNone_iff_eq_none] at hok
    exact FullInv_connect h S a hi hok.1 hok.2
  | disconnect S a => exact FullInv_disconnect h S a hi
  | emit S args =>
    exact FullInv_of_same h _ hi (emit_spec h S args).2.1
      (fun a => congrArg (fun m => (m a)._signal) (emit_spec h S args).1)
      (emit_spec h S args).2.2.1
  | makeActive a =>
    refine FullInv_of_same h _ hi rfl (fun b => ?_) rfl
    by_cases hba : b = a
    · subst hba
      exact (makeActive_fields h b).2.2.1
    · show ((Slot.makeActive h a).slotAt b)._signal = _
      rw [(makeActive_fields h a).2.2.2.2.1 b hba]
  | makeInactive a =>
    refine FullInv_of_same h _ hi rfl (fun b => ?_) rfl
    by_cases hba : b = a
    · subst hba
      exact (makeInactive_fields h b).2.2.1
    · show ((Slot.makeInactive h a).slotAt b)._signal = _
      rw [(makeInactive_fields h a).2.2.2.2.1 b hba]
  | create f => exact FullInv_alloc h (Slot.new f) rfl hi
  | connectNew S f =>
    show FullInv (connect h S f).2
    rw [connectNew_eq]
    refine FullInv_connect _ S _ (FullInv_alloc h (Slot.new f) rfl hi) (Nat.lt_succ_self _) ?_
    simp [Slot.create, Heap.alloc, Slot.new]

theorem FullInv_run (ops : List (Op Args W)) (h : Heap Args W)
    (hd : Disciplined h ops = true) (hi : FullInv h) : FullInv (run h ops) := by
  induction ops generalizing h with
  | nil => exact hi
  | cons op rest ih =>
    simp only [Disciplined, Bool.and_eq_true] at hd
    exact ih (Op.apply h op) hd.2 (FullInv_apply h op hd.1 hi)

/-- C18: under disciplined use (connect applied only to a created Slot whose
back-reference is none), every state reached from freshly created Signals and
Slots satisfies the full invariant: no registry holds a duplicate, a Slot is in
the registry of at most one Signal, and the back-reference of a Slot is S
exactly when the Slot occurs in the registry of S. -/
theorem disciplined_full_invariant (h0 : Heap Args W) (ops : List (Op Args W))
    (hfresh : Fresh h0) (hd : Disciplined h0 ops = true) :
    (∀ S, ((run h0 ops).signalAt S).slots.Nodup)
    ∧ (∀ a S1 S2, a ∈ ((run h0 ops).signalAt S1).slots → a ∈ ((run h0 ops).signalAt S2).slots →
        S1 = S2)
    ∧ (∀ S a, ((run h0 ops).slotAt a)._signal = some S ↔ a ∈ ((run h0 ops).signalAt S).slots) := by
  obtain ⟨_, hnd, hiff⟩ := FullInv_run ops h0 hd (FullInv_of_Fresh h0 hfresh)
  refine ⟨hnd, ?_, fun S a => (hiff S a).symm⟩
  intro a S1 S2 h1 h2
  have e1 := (hiff S1 a).1 h1
  have e2 := (hiff S2 a).1 h2
  rw [e1] at e2
  exact Option.some.inj e2

/-- C11, as amended: in every state reached from freshly created Signals and
Slots by any sequence of calls, a Slot whose back-reference is S occurs in the
registry of S; the converse, that a Slot in the registry of S has back-reference
S, holds when connect is only ever applied to a created Slot whose
back-reference is none. -/
theorem backref_iff_registered_when_disciplined (h0 : Heap Args W) (ops : List (Op Args W))
    (hfresh : Fresh h0) :
    (∀ S a, ((run h0 ops).slotAt a)._signal = some S → a ∈ ((run h0 ops).signalAt S).slots)
    ∧ (Disciplined h0 ops = true →
        ∀ S a, a ∈ ((run h0 ops).signalAt S).slots → ((run h0 ops).slotAt a)._signal = some S) :=
  ⟨fun S a hb => BackrefRegistered_run ops h0 (BackrefRegistered_of_Fresh h0 hfresh) a S hb,
    fun hd S a hm => ((FullInv_run ops h0 hd (FullInv_of_Fresh h0 hfresh)).2.2 S a).1 hm⟩

theorem Fresh_fresh4 : Fresh fresh4 :=
  ⟨fun _ => rfl, fun _ => rfl⟩

/-- C11 fails as stated: after connecting slot 1 to signal 0 and then to signal
1, slot 1 is in the registry of signal 0 while its back-reference is signal 1;
after connecting it twice to signal 0 and disconnecting once, it is still in
that registry while its back-reference is none. -/
theorem backref_iff_registered_fails :
    Fresh fresh4
    ∧ ¬ (((run fresh4 [.connect 0 1, .connect 1 1]).slotAt 1)._signal = some 0
          ↔ 1 ∈ ((run fresh4 [.connect 0 1, .connect 1 1]).signalAt 0).slots)
    ∧ ¬ (((run fresh4 [.connect 0 1, .connect 0 1, .disconnect 0 1]).slotAt 1)._signal = some 0
          ↔ 1 ∈ ((run fresh4 [.connect 0 1, .connect 0 1, .disconnect 0 1]).signalAt 0).slots) :=
  ⟨Fresh_fresh4, by decide, by decide⟩

/-! ## Shared ownership -/

theorem registryHandles_congr (h g : Heap Args W) (sigs : List SignalId) (a : SlotId)
    (e : ∀ S ∈ sigs, (g.signalAt S).slots.count a = (h.signalAt S).slots.count a) :
    registryHandles g sigs a = registryHandles h sigs a := by
  unfold registryHandles
  congr 1
  apply List.map_congr_left
  intro S hS
  exact e S hS

theorem registryHandles_step (h g : Heap Args W) (sigs : List SignalId) (S : SignalId)
    (a : SlotId) (d1 d2 : Nat) (hnd : sigs.Nodup) (hS : S ∈ sigs)
    (eS : (g.signalAt S).slots.count a + d1 = (h.signalAt S).slots.count a + d2)
    (eo : ∀ S2 ∈ sigs, S2 ≠ S → (g.signalAt S2).slots.count a = (h.signalAt S2).slots.count a) :
    registryHandles g sigs a + d1 = registryHandles h sigs a + d2 := by
  induction sigs with
  | nil => simp at hS
  | cons x rest ih =>
    have hx : x ∉ rest := (List.nodup_cons.1 hnd).1
    have hr : rest.Nodup := (List.nodup_cons.1 hnd).2
    have hunf : ∀ k : Heap Args W, registryHandles k (x :: rest) a
        = (k.signalAt x).slots.count a + registryHandles k rest a := by
      intro k
      simp [registryHandles]
    rw [hunf g, hunf h]
    by_cases hxS : x = S
    · subst hxS
      have hrest : registryHandles g rest a = registryHandles h rest a := by
        apply registryHandles_congr
        intro S2 hS2
        exact eo S2 (List.mem_cons_of_mem _ hS2) (fun e => hx (e ▸ hS2))
      rw [hrest]
      omega
    · have hSr : S ∈ rest := by
        rcases List.mem_cons.1 hS with e | e
        · exact absurd e.symm hxS
        · exact e
      have hhead := eo x (List.mem_cons_self x rest) hxS
      have := ih hr hSr (fun S2 hS2 hne => eo S2 (List.mem_cons_of_mem _ hS2) hne)
      rw [hhead]
      omega

theorem registryHandles_connect (h : Heap Args W) (sigs : List SignalId) (S : SignalId)
    (a : SlotId) (hnd : sigs.Nodup) (hS : S ∈ sigs) :
    registryHandles (Signal.connect h S a) sigs a = registryHandles h sigs a + 1 := by
  apply registryHandles_step h (Signal.connect h S a) sigs S a 0 1 hnd hS
  · rw [connect_slots, List.count_append]
    simp
  · intro S2 _ hne
    rw [connect_signalAt_ne h S a S2 hne]

theorem registryHandles_disconnect (h : Heap Args W) (sigs : List SignalId) (S : SignalId)
    (a : SlotId) (hnd : sigs.Nodup) (hS : S ∈ sigs) (hm : a ∈ (h.signalAt S).slots) :
    registryHandles (Signal.disconnect h S a).2 sigs a + 1 = registryHandles h sigs a := by
  apply registryHandles_step h (Signal.disconnect h S a).2 sigs S a 1 0 hnd hS
  · exact disconnect_count h S a hm
  · intro S2 _ hne
    rw [disconnect_of_mem h S a hm]
    simp [Function.update_noteq hne]

theorem registryHandles_new (h : Heap Args W) (sigs : List SignalId) (s : Slot Args W)
    (hal : Allocated h) : registryHandles (Heap.alloc h s).2 sigs h.nextSlot = 0 := by
  unfold registryHandles
  apply List.sum_eq_zero
  intro n hn
  obtain ⟨S, _, rfl⟩ := List.mem_map.1 hn
  exact List.count_eq_zero.2 (nextSlot_not_registered h hal S)

theorem connectMember_eq_connect (h : Heap Args W) (sig : SignalId) (t : ObjRef W T)
    (g : T → Args → T) :
    connectMember h sig t g = connect h sig (fun args w => t.write (g (t.read w) args) w) := rfl

/-- C12: shared ownership.  A registry keeps one owning handle per entry: a
connect adds one for the Slot and a successful disconnect removes one, whatever
the callers hold.  With the caller keeping the one handle returned by the free
connect, the count of owners is 2 after the connect, 1 after a successful
Signal::disconnect and 2 after connecting again; when the caller drops its
handle the registry still holds the Slot (count 1) and emit still invokes it. -/
theorem shared_ownership_counts (h : Heap Args W) (sigs : List SignalId) (sig : SignalId)
    (f : Args → W → W) (args : Args) (hal : Allocated h) (hnd : sigs.Nodup)
    (hsig : sig ∈ sigs) :
    (∀ (g : Heap Args W) (S : SignalId) (a : SlotId) (callers : List SlotId), S ∈ sigs →
        use_count (Signal.connect g S a) sigs callers a = use_count g sigs callers a + 1)
    ∧ (∀ (g : Heap Args W) (S : SignalId) (a : SlotId) (callers : List SlotId), S ∈ sigs →
        (Signal.disconnect g S a).1 = true →
        use_count (Signal.disconnect g S a).2 sigs callers a + 1 = use_count g sigs callers a)
    ∧ use_count (connect h sig f).2 sigs [(connect h sig f).1] (connect h sig f).1 = 2
    ∧ (Signal.disconnect (connect h sig f).2 sig (connect h sig f).1).1 = true
    ∧ use_count (Signal.disconnect (connect h sig f).2 sig (connect h sig f).1).2 sigs
        [(connect h sig f).1] (connect h sig f).1 = 1
    ∧ use_count
        (Signal.connect (Signal.disconnect (connect h sig f).2 sig (connect h sig f).1).2 sig
          (connect h sig f).1) sigs [(connect h sig f).1] (connect h sig f).1 = 2
    ∧ use_count (connect h sig f).2 sigs [] (connect h sig f).1 = 1
    ∧ invocations (connect h sig f).1 (emitted (connect h sig f).2 sig args) = 1 := by
  have hgen1 : ∀ (g : Heap Args W) (S : SignalId) (a : SlotId) (callers : List SlotId),
      S ∈ sigs →
      use_count (Signal.connect g S a) sigs callers a = use_count g sigs callers a + 1 := by
    intro g S a callers hS
    unfold use_count
    rw [registryHandles_connect g sigs S a hnd hS]
    omega
  have hgen2 : ∀ (g : Heap Args W) (S : SignalId) (a : SlotId) (callers : List SlotId),
      S ∈ sigs → (Signal.disconnect g S a).1 = true →
      use_count (Signal.disconnect g S a).2 sigs callers a + 1 = use_count g sigs callers a := by
    intro g S a callers hS ht
    unfold use_count
    have := registryHandles_disconnect g sigs S a hnd hS (disconnect_true_mem g S a ht)
    omega
  have hmem : (connect h sig f).1 ∈ ((connect h sig f).2.signalAt sig).slots := by
    show h.nextSlot ∈ ((Signal.connect (Slot.create h f).2 sig h.nextSlot).signalAt sig).slots
    rw [connect_slots]
    simp
  have ht : (Signal.disconnect (connect h sig f).2 sig (connect h sig f).1).1 = true := by
    rw [disconnect_of_mem _ sig _ hmem]
  have h0 : use_count (Slot.create h f).2 sigs [] h.nextSlot = 0 := by
    unfold use_count
    rw [show (Slot.create h f).2 = (Heap.alloc h (Slot.new f)).2 from rfl,
      registryHandles_new h sigs (Slot.new f) hal]
    rfl
  have h1 : use_count (connect h sig f).2 sigs [] (connect h sig f).1 = 1 := by
    show use_count (Signal.connect (Slot.create h f).2 sig h.nextSlot) sigs [] h.nextSlot = 1
    rw [hgen1 _ sig _ [] hsig, h0]
  have hcall : ∀ g : Heap Args W, use_count g sigs [(connect h sig f).1] (connect h sig f).1
      = use_count g sigs [] (connect h sig f).1 + 1 := by
    intro g
    unfold use_count
    simp
    omega
  have h2 : use_count (Signal.disconnect (connect h sig f).2 sig (connect h sig f).1).2 sigs []
      (connect h sig f).1 = 0 := by
    have := hgen2 (connect h sig f).2 sig (connect h sig f).1 [] hsig ht
    omega
  have hact : ((connect h sig f).2.slotAt (connect h sig f).1)._active = true := by
    show ((Signal.connect (Slot.create h f).2 sig h.nextSlot).slotAt h.nextSlot)._active = true
    rw [connect_active]
    simp [Slot.create, Heap.alloc, Slot.new]
  have hcnt : ((connect h sig f).2.signalAt sig).slots.count (connect h sig f).1 = 1 := by
    show ((Signal.connect (Slot.create h f).2 sig h.nextSlot).signalAt sig).slots.count
      h.nextSlot = 1
    rw [connect_slots, List.count_append]
    have : ((Slot.create h f).2.signalAt sig).slots.count h.nextSlot = 0 :=
      List.count_eq_zero.2 (nextSlot_not_registered h hal sig)
    rw [this]
    simp
  refine ⟨hgen1, hgen2, by rw [hcall, h1], ht, by rw [hcall, h2], ?_, h1, ?_⟩
  · rw [hcall, hgen1 _ sig _ [] hsig, h2]
  · rw [invocations_emitted_active _ sig args _ hact, hcnt]

/-! ## The later theorems at concrete states -/

theorem backref_iff_registered_when_disciplined_witness :
    Fresh fresh4
    ∧ Disciplined fresh4 tidyOps = true
    ∧ 1 ∈ ((run fresh4 tidyOps).signalAt 1).slots
    ∧ ((run fresh4 tidyOps).slotAt 4)._signal = some 1 :=
  ⟨Fresh_fresh4, by decide,
    (backref_iff_registered_when_disciplined fresh4 tidyOps Fresh_fresh4).1 1 1 (by decide),
    (backref_iff_registered_when_disciplined fresh4 tidyOps Fresh_fresh4).2 (by decide) 1 4
      (by decide)⟩

theorem shared_ownership_counts_witness :
    Allocated pairHeap
    ∧ use_count (connect pairHeap 0 (fun n w => (w.1 + n, w.2))).2 [0, 1] [1] 1 = 2
    ∧ use_count (Signal.disconnect (connect pairHeap 0 (fun n w => (w.1 + n, w.2))).2 0 1).2
        [0, 1] [1] 1 = 1
    ∧ use_count (connect pairHeap 0 (fun n w => (w.1 + n, w.2))).2 [0, 1] [] 1 = 1
    ∧ invocations 1 (emitted (connect pairHeap 0 (fun n w => (w.1 + n, w.2))).2 0 3) = 1 :=
  ⟨Allocated_pairHeap,
    (shared_ownership_counts pairHeap [0, 1] 0 (fun n w => (w.1 + n, w.2)) 3 Allocated_pairHeap
      (by decide) (by decide)).2.2.1,
    (shared_ownership_counts pairHeap [0, 1] 0 (fun n w => (w.1 + n, w.2)) 3 Allocated_pairHeap
      (by decide) (by decide)).2.2.2.2.1,
    (shared_ownership_counts pairHeap [0, 1] 0 (fun n w => (w.1 + n, w.2)) 3 Allocated_pairHeap
      (by decide) (by decide)).2.2.2.2.2.2.1,
    (shared_ownership_counts pairHeap [0, 1] 0 (fun n w => (w.1 + n, w.2)) 3 Allocated_pairHeap
      (by decide) (by decide)).2.2.2.2.2.2.2⟩

theorem disconnected_once_not_invoked_witness :
    (busy.signalAt 0).slots.count 3 = 1
    ∧ emitted busy 0 5 = [(1, 5), (1, 5), (3, 5)]
    ∧ emitted (Signal.disconnect busy 0 3).2 0 5 = [(1, 5), (1, 5)]
    ∧ invocations 3 (emitted (Signal.disconnect busy 0 3).2 0 5) = 0
    ∧ (Signal.emit (Signal.disconnect busy 0 3).2 0 5).world = 10 :=
  ⟨by decide, by decide,
    (disconnected_once_not_invoked busy 0 3 5 (by decide)).2.1.trans (by decide),
    (disconnected_once_not_invoked busy 0 3 5 (by decide)).2.2.1,
    (disconnected_once_not_invoked busy 0 3 5 (by decide)).2.2.2.2⟩

theorem reconnect_restores_single_registration_witness :
    (busy.signalAt 0).slots.count 3 = 1
    ∧ (busy.slotAt 3)._active = true
    ∧ ((Signal.connect (Signal.disconnect busy 0 3).2 0 3).signalAt 0).slots = [1, 2, 1, 3]
    ∧ emitted (Signal.connect (Signal.disconnect busy 0 3).2 0 3) 0 5 = [(1, 5), (1, 5), (3, 5)]
    ∧ invocations 3 (emitted (Signal.connect (Signal.disconnect busy 0 3).2 0 3) 0 5) = 1 :=
  ⟨by decide, by decide,
    (reconnect_restores_single_registration busy 0 3 5 6 (by decide) (by decide)).2.2.1,
    (reconnect_restores_single_registration busy 0 3 5 6 (by decide) (by decide)).2.2.2.2.1,
    (reconnect_restores_single_registration busy 0 3 5 6 (by decide) (by decide)).2.2.2.2.2.1⟩

theorem duplicates_not_deduplicated_witness :
    (busy.slotAt 1)._active = true
    ∧ ((connectAll busy 0 (List.replicate 2 1)).signalAt 0).slots.count 1 = 4
    ∧ invocations 1 (emitted (connectAll busy 0 (List.replicate 2 1)) 0 5) = 4
    ∧ ((connectAll busy 0 (List.replicate 3 0)).signalAt 0).slots.count 0 = 3
    ∧ ((Signal.disconnect busy 0 1).2.signalAt 0).slots.count 1 + 1 = 2 :=
  ⟨by decide,
    (duplicates_not_deduplicated busy 0 1 2 5 (by decide)).1,
    (duplicates_not_deduplicated busy 0 1 2 5 (by decide)).2.1,
    ((duplicates_not_deduplicated busy 0 0 3 5 (by decide)).2.2.1 (by decide)).1,
    ((duplicates_not_deduplicated busy 0 1 2 5 (by decide)).2.2.2 busy (by decide)).1⟩

theorem reconnect_without_detach_witness :
    (0 : SignalId) ≠ 1
    ∧ 1 ∈ (busy.signalAt 0).slots
    ∧ ((Signal.connect busy 1 1).signalAt 0).slots = [1, 2, 1, 3]
    ∧ ((Signal.connect busy 1 1).slotAt 1)._signal = some 1
    ∧ invocations 1 (emitted (Signal.connect busy 1 1) 0 5) = 2 :=
  ⟨by decide, by decide,
    congrArg Signal.slots (reconnect_without_detach busy 0 1 1 5 (by decide) (by decide)).1,
    (reconnect_without_detach busy 0 1 1 5 (by decide) (by decide)).2.2.2.1,
    ((reconnect_without_detach busy 0 1 1 5 (by decide) (by decide)).2.2.2.2.2.2
      (by decide)).1⟩

theorem backref_names_holding_signal_witness :
    Fresh fresh4
    ∧ ((run fresh4 looseOps).slotAt 1)._signal = some 1
    ∧ 1 ∈ ((run fresh4 looseOps).signalAt 1).slots :=
  ⟨Fresh_fresh4, by decide,
    (backref_names_holding_signal fresh4 looseOps 1 1 Fresh_fresh4 (by decide)).1⟩

theorem disciplined_full_invariant_witness :
    Fresh fresh4
    ∧ Disciplined fresh4 tidyOps = true
    ∧ ((run fresh4 tidyOps).signalAt 1).slots = [1, 4]
    ∧ ((run fresh4 tidyOps).signalAt 1).slots.Nodup
    ∧ (((run fresh4 tidyOps).slotAt 4)._signal = some 1
        ↔ 4 ∈ ((run fresh4 tidyOps).signalAt 1).slots) :=
  ⟨Fresh_fresh4, by decide, by decide,
    (disciplined_full_invariant fresh4 tidyOps Fresh_fresh4 (by decide)).1 1,
    (disciplined_full_invariant fresh4 tidyOps Fresh_fresh4 (by decide)).2.2 1 4⟩

theorem emit_pure_dispatch_witness :
    (Signal.emit busy 0 5).signalAt = busy.signalAt
    ∧ (Signal.emit (Signal.emit busy 0 5) 0 5).calls
        = [(1, 5), (1, 5), (3, 5), (1, 5), (1, 5), (3, 5)]
    ∧ Signal.emit busy 1 5 = busy :=
  ⟨(emit_pure_dispatch busy 0 5).1,
    (emit_pure_dispatch busy 0 5).2.2.2.2.2.1.trans (by decide),
    ((emit_pure_dispatch busy 1 5).2.2.2.2.2.2 (by decide)).2⟩

end regalis
